import Mathlib

/-!
Verification of the multitrack MIDI tokenizer/vocabulary
(`multitrack_vocabulary.py`, `multitrack_tokenizer.py`).

The Python source is shallowly embedded: module-level constants and list
comprehensions become Lean definitions, Python integers become `ℕ`/`ℤ`
(Python `//` and `%` on possibly-negative ints are `Int.fdiv`/`Int.emod`),
Python floats that arise here (only in `round_`/`time_cutter`, where all
divisions are by the power-of-two constant `DIV = 8` and hence exact) become
`ℚ`, and code that can raise becomes `Except String`.  Python string
operations used by the decoder (`split('_')`, `startswith`, `int(...)`,
list indexing with wrap-around for negative indices, `list.index`) are
modelled by the `py*` helpers below with Python semantics.
-/

set_option maxHeartbeats 1600000
set_option maxRecDepth 8000
set_option linter.unnecessarySeqFocus false

namespace MMT

/-! ### Python-semantics helpers -/

/-- Python `list.__getitem__` positional lookup for a non-negative index:
`l[n]` for `0 ≤ n`, raising `IndexError` past the end. -/
def pyGetAux {α : Type} : List α → ℕ → Except String α
  | [], _ => .error "IndexError"
  | a :: _, 0 => .ok a
  | _ :: t, n + 1 => pyGetAux t n

/-- Tail-recursive list length (so that concrete runs over long lists do not
overflow the evaluator); `plen l n = l.length + n`. -/
def plen {α : Type} : List α → ℕ → ℕ
  | [], n => n
  | _ :: t, n => plen t (n + 1)

/-- Python list indexing `l[i]` for an `int` index: negative indices wrap
once from the end; anything outside `[-len, len)` raises `IndexError`. -/
def pyGet {α : Type} (l : List α) (i : ℤ) : Except String α :=
  if 0 ≤ i then pyGetAux l i.toNat
  else if 0 ≤ i + (plen l 0 : ℤ) then pyGetAux l (i + (plen l 0 : ℤ)).toNat
  else .error "IndexError"

/-- Python `list.index`: index of the first occurrence, `ValueError` if the
value is absent. -/
def pyIndexAux {α : Type} [BEq α] : List α → α → ℕ → Except String ℕ
  | [], _, _ => .error "ValueError"
  | b :: t, a, n => cond (a == b) (.ok n) (pyIndexAux t a (n + 1))

/-- Python `str.startswith`. -/
def pyStartsWith (s p : String) : Bool :=
  p.data.isPrefixOf s.data

/-- Helper for `pySplit`: splits a character list at every occurrence of
`sep`, returning the chunk before the first separator and the remaining
chunks. -/
def pySplitAux (sep : Char) : List Char → List Char × List (List Char)
  | [] => ([], [])
  | c :: r =>
    let p := pySplitAux sep r
    if c = sep then ([], p.1 :: p.2) else (c :: p.1, p.2)

/-- Python `str.split(sep)` for a single-character separator: always returns
at least one (possibly empty) chunk. -/
def pySplit (s : String) (sep : Char) : List String :=
  let p := pySplitAux sep s.data
  String.mk p.1 :: (p.2.map String.mk)

/-- Decimal digit value of a character, if it is a digit. -/
def digitVal (c : Char) : Option ℕ :=
  if '0' ≤ c ∧ c ≤ '9' then some (c.toNat - '0'.toNat) else none

/-- Accumulating decimal parser over a character list. -/
def digitsAcc : ℕ → List Char → Option ℕ
  | acc, [] => some acc
  | acc, c :: r =>
    match digitVal c with
    | some d => digitsAcc (10 * acc + d) r
    | none => none

/-- Python `int(s)` restricted to the strings this codec produces (an
optional `-` sign followed by decimal digits); everything else raises
`ValueError`. -/
def pyInt (s : String) : Except String ℤ :=
  match s.data with
  | '-' :: r =>
    if r = [] then .error "ValueError"
    else match digitsAcc 0 r with
      | some n => .ok (-(n : ℤ))
      | none => .error "ValueError"
  | l =>
    if l = [] then .error "ValueError"
    else match digitsAcc 0 l with
      | some n => .ok (n : ℤ)
      | none => .error "ValueError"

/-! ### MANIFEST CONSTANTS (multitrack_vocabulary.py lines 8-21) -/

def note_on_events : ℕ := 128
def note_off_events : ℕ := note_on_events
def time_shift_events : ℕ := 125
def velocity_events : ℕ := 32
def max_instruments : ℕ := 16
def instrument_events : ℕ := 128
def LTH : ℕ := 1000
def DIV : ℕ := LTH / time_shift_events
def BIN_STEP : ℕ := 128 / velocity_events

/-! ### Vocabulary lists (multitrack_vocabulary.py lines 24-37) -/

def note_on_vocab : List String :=
  (List.range max_instruments).flatMap fun inst =>
    (List.range note_on_events).map fun i =>
      "note_on_" ++ Nat.repr i ++ "_" ++ Nat.repr inst

def note_off_vocab : List String :=
  (List.range max_instruments).flatMap fun inst =>
    (List.range note_off_events).map fun i =>
      "note_off_" ++ Nat.repr i ++ "_" ++ Nat.repr inst

def time_shift_vocab : List String :=
  (List.range time_shift_events).map fun i => "time_shift_" ++ Nat.repr i

def velocity_vocab : List String :=
  (List.range velocity_events).map fun i => "set_velocity_" ++ Nat.repr i

def instrument_vocab : List String :=
  (List.range instrument_events).map fun i => "set_instrument_" ++ Nat.repr i

def vocab : List String :=
  ["<pad>"] ++ note_on_vocab ++ note_off_vocab ++ time_shift_vocab ++
    velocity_vocab ++ instrument_vocab ++ ["<start>", "<end>"]

def vocab_size : ℕ := vocab.length

def pad_token : ℕ := vocab.indexOf "<pad>"
def start_token : ℕ := vocab.indexOf "<start>"
def end_token : ℕ := vocab.indexOf "<end>"

/-- Python `vocab.index(s)` (`ValueError` when absent), as used by
`events_to_indices` and inline in `midi_parser`. -/
def vocabIndex (s : String) : Except String ℕ :=
  pyIndexAux vocab s 0

/-! ### Helper functions (multitrack_vocabulary.py lines 41-100) -/

/-- `events_to_indices`: maps `vocab.index` over an event list. -/
def events_to_indices : List String → Except String (List ℕ)
  | [] => .ok []
  | e :: r =>
    match vocabIndex e with
    | .error err => .error err
    | .ok i =>
      match events_to_indices r with
      | .error err => .error err
      | .ok t => .ok (i :: t)

/-- `indices_to_events`: maps Python `vocab[idx]` over an index list. -/
def indices_to_events : List ℤ → Except String (List String)
  | [] => .ok []
  | i :: r =>
    match pyGet vocab i with
    | .error err => .error err
    | .ok e =>
      match indices_to_events r with
      | .error err => .error err
      | .ok t => .ok (e :: t)

/-- `velocity_to_bin(velocity, step)`: Python ints, so the argument is `ℤ`
and `//` is `Int.fdiv`. -/
def velocity_to_bin (velocity : ℤ) (step : ℤ) : Except String ℤ :=
  if ¬((128 : ℤ) % step = 0) then .error "ValueError step"
  else if ¬(0 ≤ velocity ∧ velocity ≤ 127) then .error "ValueError velocity"
  else .ok (velocity.fdiv step)

/-- `bin_to_velocity(bin, step)`. -/
def bin_to_velocity (b : ℤ) (step : ℤ) : Except String ℤ :=
  if ¬(0 ≤ b * step ∧ b * step ≤ 127) then .error "ValueError bin"
  else .ok (b * step)

/-- `round_(a)`: `a // 1` is `⌊a⌋` and `a % 1` is `Int.fract a` for Python
floats, so this is floor plus one when the fractional part is ≥ 1/2. -/
def round_ (a : ℚ) : ℤ :=
  ⌊a⌋ + (if (1 : ℚ) / 2 ≤ Int.fract a then 1 else 0)

/-- `time_cutter(time, lth, div)`: one maximal unit `round_(lth/div)` per
full `lth` block, then the rounded leftover if positive. -/
def time_cutter (time lth div : ℕ) : Except String (List ℤ) :=
  if ¬(lth % div = 0) then .error "ValueError lth div"
  else
    .ok (((List.range (time / lth)).map fun _ => round_ ((lth : ℚ) / (div : ℚ))) ++
      (if 0 < round_ (((time % lth : ℕ) : ℚ) / (div : ℚ))
        then [round_ (((time % lth : ℕ) : ℚ) / (div : ℚ))] else []))

/-- `base_idx` from `time_to_events`: `len(note_on_vocab) + len(note_off_vocab)`. -/
def base_idx : ℤ := ((note_on_vocab.length + note_off_vocab.length : ℕ) : ℤ)

/-- Loop body of `time_to_events`: for each unit count `i`, appends the
string `vocab[base_idx + i]` (Python indexing, which can raise) and the raw
index `base_idx + i`. -/
def timeEventsAux : List ℤ → Except String (List String × List ℤ)
  | [] => .ok ([], [])
  | i :: r =>
    match pyGet vocab (base_idx + i) with
    | .error err => .error err
    | .ok s =>
      match timeEventsAux r with
      | .error err => .error err
      | .ok p => .ok (s :: p.1, (base_idx + i) :: p.2)

/-- `time_to_events(delta_time)` with the module defaults, returning the
pair of appended event strings and appended indices. -/
def time_to_events (delta : ℕ) : Except String (List String × List ℤ) :=
  match time_cutter delta LTH DIV with
  | .error err => .error err
  | .ok time => timeEventsAux time

/-! ### multitrack_tokenizer.py: data model -/

/-- The `type` strings a `MidiEvent` can carry in `midi_parser`. -/
inductive EvType : Type
  | note_on
  | note_off
  | set_instrument
deriving DecidableEq

/-- The `MidiEvent` dataclass (fields unused by a given `type` default to 0,
mirroring the `None` defaults). -/
structure MidiEvent : Type where
  type : EvType
  note : ℕ
  velocity : ℕ
  instrument : ℕ
  time : ℕ
  program : ℕ
deriving DecidableEq

/-- The mido messages `midi_parser` inspects.  `noteOn`/`noteOff` carry
channel, note, velocity and delta-time; `programChange` carries channel,
program and delta-time; `setTempo` is the `set_tempo` meta message; `meta`
stands for any other meta message and `other` for any other non-meta
message (both only advance time).  mido validates data bytes, so note,
velocity and program are 7-bit and channel is 4-bit in any real input;
that is the `validMsg` hypothesis below, not a structural constraint. -/
inductive RawMsg : Type
  | noteOn (channel note velocity time : ℕ)
  | noteOff (channel note velocity time : ℕ)
  | programChange (channel program time : ℕ)
  | setTempo (tempo time : ℕ)
  | meta (time : ℕ)
  | other (time : ℕ)
deriving DecidableEq

/-- Delta-time of a raw message (`msg.time`). -/
def RawMsg.time : RawMsg → ℕ
  | .noteOn _ _ _ t => t
  | .noteOff _ _ _ t => t
  | .programChange _ _ t => t
  | .setTempo _ t => t
  | .meta t => t
  | .other t => t

/-- The first-pass state of `midi_parser`: collected absolute-time events,
the per-channel program table (`channel_programs`, a dict with default 0),
the running `current_time`, and the captured `tempo`. -/
structure PState : Type where
  events : List MidiEvent
  channel_programs : ℕ → ℕ
  current_time : ℕ
  tempo : ℕ

def pInit : PState := ⟨[], fun _ => 0, 0, 0⟩

/-- First pass of `midi_parser`, one message (lines 60-93): time is
accumulated before the meta check; `note_on` with velocity 0 becomes
`note_off`; note events are stamped with the program currently assigned to
their channel; `program_change` updates the table and emits a
`set_instrument` event. -/
def procMsg (st : PState) (m : RawMsg) : PState :=
  let ct := st.current_time + m.time
  match m with
  | .setTempo tp _ =>
    { st with current_time := ct,
              tempo := if st.tempo = 0 then tp else st.tempo }
  | .meta _ => { st with current_time := ct }
  | .other _ => { st with current_time := ct }
  | .noteOn c n v _ =>
    let ty := if v = 0 then EvType.note_off else EvType.note_on
    { st with current_time := ct,
              events := st.events ++
                [⟨ty, n, v, st.channel_programs c, ct, 0⟩] }
  | .noteOff c n v _ =>
    { st with current_time := ct,
              events := st.events ++
                [⟨EvType.note_off, n, v, st.channel_programs c, ct, 0⟩] }
  | .programChange c p _ =>
    { st with current_time := ct,
              channel_programs := fun x => if x = c then p else st.channel_programs x,
              events := st.events ++ [⟨EvType.set_instrument, 0, 0, c, ct, p⟩] }

/-- First pass over all tracks.  Note that, as in the source, the running
state (in particular `current_time`) is threaded across track boundaries
without being reset. -/
def procAll (st : PState) (tracks : List (List RawMsg)) : PState :=
  tracks.foldl (fun s track => track.foldl procMsg s) st

/-- Stable insertion into a time-sorted list: an element goes before the
first strictly later element and after equal ones. -/
def sortInsert (e : MidiEvent) : List MidiEvent → List MidiEvent
  | [] => [e]
  | b :: t => if e.time ≤ b.time then e :: b :: t else b :: sortInsert e t

/-- `absolute_events.sort(key=lambda x: x.time)`: Python's sort is stable,
and the stable sort by a total preorder is a unique function; it is
modelled here by stable insertion sort. -/
def sortByTime : List MidiEvent → List MidiEvent
  | [] => []
  | e :: r => sortInsert e (sortByTime r)

/-! ### multitrack_tokenizer.py: second pass (encoding) -/

/-- The event-string of a `MidiEvent` type, as interpolated by
`f"{event.type}_..."`. -/
def EvType.str : EvType → String
  | .note_on => "note_on"
  | .note_off => "note_off"
  | .set_instrument => "set_instrument"

/-- Token emission for one semantic event (`midi_parser` lines 111-128):
`set_instrument` emits one token; `note_on` emits `set_velocity` then the
note token; `note_off` emits the note token.  Both the event string and its
`vocab.index` are produced; a failed lookup raises. -/
def encodeEvent (e : MidiEvent) : Except String (List String × List ℤ) :=
  match e.type with
  | .set_instrument =>
    let s := "set_instrument_" ++ Nat.repr e.program
    match vocabIndex s with
    | .error err => .error err
    | .ok i => .ok ([s], [(i : ℤ)])
  | .note_on =>
    match velocity_to_bin (e.velocity : ℤ) (BIN_STEP : ℤ) with
    | .error err => .error err
    | .ok b =>
      let vs := "set_velocity_" ++ Int.repr b
      match vocabIndex vs with
      | .error err => .error err
      | .ok iv =>
        let ns := "note_on_" ++ Nat.repr e.note ++ "_" ++ Nat.repr e.instrument
        match vocabIndex ns with
        | .error err => .error err
        | .ok inn => .ok ([vs, ns], [(iv : ℤ), (inn : ℤ)])
  | .note_off =>
    let ns := "note_off_" ++ Nat.repr e.note ++ "_" ++ Nat.repr e.instrument
    match vocabIndex ns with
    | .error err => .error err
    | .ok inn => .ok ([ns], [(inn : ℤ)])

/-- The `if event.time > last_time` block of `midi_parser`'s second pass:
emits the `time_to_events` tokens for a positive gap and advances
`last_time`. -/
def timeStep (last t : ℕ) : Except String (List String × List ℤ × ℕ) :=
  if last < t then
    match time_to_events (t - last) with
    | .error err => .error err
    | .ok p => .ok (p.1, p.2, t)
  else .ok ([], [], last)

/-- Main loop of `midi_parser`'s second pass (lines 103-128), carrying
`last_time`: a positive time gap first emits the `time_to_events` tokens. -/
def encodeBody : ℕ → List MidiEvent → Except String (List String × List ℤ)
  | _, [] => .ok ([], [])
  | last, e :: rest =>
    match timeStep last e.time with
    | .error err => .error err
    | .ok (ts, ti, last') =>
      match encodeEvent e with
      | .error err => .error err
      | .ok (es, ei) =>
        match encodeBody last' rest with
        | .error err => .error err
        | .ok (rs, ri) => .ok (ts ++ es ++ rs, ti ++ ei ++ ri)

/-- Second pass of `midi_parser` from the sorted semantic events: `<start>`
token, body, `<end>` token (lines 95-132). -/
def tokenize (evs : List MidiEvent) : Except String (List String × List ℤ) :=
  match encodeBody 0 (sortByTime evs) with
  | .error err => .error err
  | .ok (es, is) =>
    .ok ("<start>" :: es ++ ["<end>"],
      (start_token : ℤ) :: is ++ [(end_token : ℤ)])

/-- `midi_parser(mid)` given the track list of an in-memory mido file:
returns (index list, event list, tempo), the `LongTensor` wrapper being a
trivial cast.  (The fname/mid exclusive-argument check and mido file
parsing are at the I/O boundary and are not modelled.) -/
def midiParser (tracks : List (List RawMsg)) :
    Except String (List ℤ × List String × ℕ) :=
  let st := procAll pInit tracks
  match tokenize st.events with
  | .error err => .error err
  | .ok (es, is) => .ok (is, es, st.tempo)

/-! ### multitrack_tokenizer.py: list_parser (decoding) -/

/-- A message appended to an instrument track by `list_parser`: either the
`program_change` a track is seeded with, or a note message.  Field values
are the Python ints the source passes to `mido.Message`. -/
inductive TrackMsg : Type
  | program_change (program channel time : ℤ)
  | note (isOn : Bool) (note velocity channel time : ℤ)
deriving DecidableEq

/-- `mido.Message('note_on'/'note_off', ...)` construction: mido validates
its data bytes (note and velocity in [0,127], channel in [0,15]) and raises
otherwise; `time` is not range-checked.  Modelled from mido's documented
validation, which the source relies on. -/
def pyMessage (isOn : Bool) (note velocity channel time : ℤ) :
    Except String TrackMsg :=
  if 0 ≤ note ∧ note ≤ 127 ∧ 0 ≤ velocity ∧ velocity ≤ 127 ∧
      0 ≤ channel ∧ channel ≤ 15 then
    .ok (.note isOn note velocity channel time)
  else .error "ValueError mido"

/-- `mido.Message('program_change', ...)` construction, with mido's
validation of program and channel. -/
def pyProgramChange (program channel time : ℤ) : Except String TrackMsg :=
  if 0 ≤ program ∧ program ≤ 127 ∧ 0 ≤ channel ∧ channel ≤ 15 then
    .ok (.program_change program channel time)
  else .error "ValueError mido"

/-- The `list_parser` loop state: `current_instrument`, `current_velocity`,
`delta_time`, and the `instrument_tracks` dict in insertion order (which is
also the order the tracks are appended to `mid.tracks`).  The constant
metadata track (track name and tempo) that `list_parser` prepends is not
part of the loop state and is omitted. -/
structure DecState : Type where
  current_instrument : ℤ
  current_velocity : ℤ
  delta_time : ℤ
  tracks : List (ℤ × List TrackMsg)
deriving DecidableEq

def decInit : DecState := ⟨0, 64, 0, []⟩

/-- Appends a message to the (existing) track of instrument `k`. -/
def appendToTrack (tracks : List (ℤ × List TrackMsg)) (k : ℤ)
    (m : TrackMsg) : List (ℤ × List TrackMsg) :=
  tracks.map fun p => if p.1 = k then (p.1, p.2 ++ [m]) else p

/-- Whether `instrument_tracks` already has a track for `k`
(`k in instrument_tracks`). -/
def hasTrack (tracks : List (ℤ × List TrackMsg)) (k : ℤ) : Bool :=
  tracks.any fun p => p.1 == k

/-- One iteration of the `list_parser` event loop (lines 177-235). -/
def decodeStep (st : DecState) (event : String) : Except String DecState :=
  if event ∈ ["<pad>", "<start>", "<end>"] then .ok st
  else if pyStartsWith event "time_shift_" then
    match pyInt ((pySplit event '_').getLastD "") with
    | .error err => .error err
    | .ok tv => .ok { st with delta_time := st.delta_time + tv * (DIV : ℤ) }
  else if pyStartsWith event "set_velocity_" then
    match pyInt ((pySplit event '_').getLastD "") with
    | .error err => .error err
    | .ok b =>
      match bin_to_velocity b (BIN_STEP : ℤ) with
      | .error err => .error err
      | .ok v => .ok { st with current_velocity := v }
  else if pyStartsWith event "set_instrument_" then
    match pyInt ((pySplit event '_').getLastD "") with
    | .error err => .error err
    | .ok p =>
      let st1 := { st with current_instrument := p }
      if hasTrack st1.tracks p then .ok st1
      else
        match pyProgramChange p (p % 16) 0 with
        | .error err => .error err
        | .ok pc => .ok { st1 with tracks := st1.tracks ++ [(p, [pc])] }
  else if pyStartsWith event "note_on_" || pyStartsWith event "note_off_" then
    let parts := pySplit event '_'
    match pyGetAux parts 0 with
    | .error err => .error err
    | .ok p0 =>
      match pyGetAux parts 1 with
      | .error err => .error err
      | .ok p1 =>
        match pyGetAux parts 2 with
        | .error err => .error err
        | .ok p2 =>
          match pyGetAux parts 3 with
          | .error err => .error err
          | .ok p3 =>
            let note_type := p0 ++ "_" ++ p1
            match pyInt p2 with
            | .error err => .error err
            | .ok note =>
              match pyInt p3 with
              | .error err => .error err
              | .ok instrument =>
                let ensured : Except String DecState :=
                  if hasTrack st.tracks instrument then .ok st
                  else
                    match pyProgramChange 0 (instrument % 16) 0 with
                    | .error err => .error err
                    | .ok pc =>
                      .ok { st with tracks := st.tracks ++ [(instrument, [pc])] }
                match ensured with
                | .error err => .error err
                | .ok st1 =>
                  match pyMessage (note_type == "note_on") note
                      (if note_type == "note_on" then st.current_velocity else 0)
                      (instrument % 16) st.delta_time with
                  | .error err => .error err
                  | .ok msg =>
                    .ok { st1 with
                          delta_time := 0,
                          tracks := appendToTrack st1.tracks instrument msg }
  else .ok st

/-- The `list_parser` event loop over a whole event list. -/
def decodeList : DecState → List String → Except String DecState
  | st, [] => .ok st
  | st, e :: rest =>
    match decodeStep st e with
    | .error err => .error err
    | .ok st' => decodeList st' rest

/-- `list_parser(event_list=...)`: decodes an event-string list.  The
returned mido file is the constant metadata track followed by the
instrument tracks of the final state. -/
def listParserEvents (event_list : List String) : Except String DecState :=
  decodeList decInit event_list

/-- `list_parser(index_list=...)`: every element must be an `int` (enforced
here by the type `ℤ`), is looked up with Python list indexing via
`indices_to_events`, and the resulting event list is decoded. -/
def listParserIdx (index_list : List ℤ) : Except String DecState :=
  match indices_to_events index_list with
  | .error err => .error err
  | .ok es => decodeList decInit es

/-! ### Characterizations of the Python helpers -/

lemma plen_eq {α : Type} : ∀ (l : List α) (n : ℕ), plen l n = l.length + n
  | [], n => by simp [plen]
  | _ :: t, n => by simp [plen, plen_eq t]; omega

lemma pyGetAux_eq {α : Type} :
    ∀ (l : List α) (n : ℕ),
      pyGetAux l n = match l[n]? with
        | some a => .ok a
        | none => .error "IndexError"
  | [], _ => by simp [pyGetAux]
  | _ :: _, 0 => by simp [pyGetAux]
  | _ :: t, n + 1 => by simpa [pyGetAux] using pyGetAux_eq t n

lemma pyGetAux_of_getElem {α : Type} {l : List α} {n : ℕ} {a : α}
    (h : l[n]? = some a) : pyGetAux l n = .ok a := by
  rw [pyGetAux_eq, h]

lemma pyGet_of_getElem {α : Type} {l : List α} {i : ℤ} {a : α}
    (hi : 0 ≤ i) (h : l[i.toNat]? = some a) : pyGet l i = .ok a := by
  rw [pyGet, if_pos hi, pyGetAux_of_getElem h]

lemma pyGet_neg_of_getElem {α : Type} {l : List α} {i : ℤ} {a : α}
    (hi : i < 0) (hge : 0 ≤ i + (l.length : ℤ))
    (h : l[(i + (l.length : ℤ)).toNat]? = some a) : pyGet l i = .ok a := by
  rw [pyGet, if_neg (by omega), plen_eq]
  simp only [Nat.add_zero]
  rw [if_pos hge, pyGetAux_of_getElem h]

lemma pyGet_err_low {α : Type} {l : List α} {i : ℤ}
    (h : i + (l.length : ℤ) < 0) : pyGet l i = .error "IndexError" := by
  have h0 : ¬(0 ≤ i) := by omega
  rw [pyGet, if_neg h0, plen_eq]
  simp only [Nat.add_zero]
  rw [if_neg (by omega)]

lemma pyGet_err_high {α : Type} {l : List α} {i : ℤ}
    (h0 : 0 ≤ i) (h : (l.length : ℤ) ≤ i) : pyGet l i = .error "IndexError" := by
  rw [pyGet, if_pos h0, pyGetAux_eq]
  have : l[i.toNat]? = none := by
    rw [List.getElem?_eq_none]
    omega
  rw [this]

lemma pyIndexAux_of_mem {α : Type} [DecidableEq α] {a : α} :
    ∀ (l : List α) (n : ℕ), a ∈ l → pyIndexAux l a n = .ok (l.indexOf a + n)
  | b :: t, n, hmem => by
    by_cases hab : a = b
    · subst hab
      simp [pyIndexAux, List.indexOf_cons_self]
    · have hat : a ∈ t := by
        rcases List.mem_cons.mp hmem with h | h
        · exact absurd h hab
        · exact h
      have hbeq : (a == b) = false := beq_false_of_ne hab
      rw [pyIndexAux, hbeq, cond_false, pyIndexAux_of_mem t (n + 1) hat,
        List.indexOf_cons_ne _ (Ne.symm hab)]
      simp [Nat.succ_add, Nat.add_comm, Nat.add_assoc, Nat.add_left_comm]

lemma pyIndexAux_of_not_mem {α : Type} [DecidableEq α] {a : α} :
    ∀ (l : List α) (n : ℕ), a ∉ l → pyIndexAux l a n = .error "ValueError"
  | [], _, _ => rfl
  | b :: t, n, hmem => by
    have hab : ¬(a = b) := fun h => hmem (h ▸ List.mem_cons_self b t)
    have hat : a ∉ t := fun h => hmem (List.mem_cons_of_mem b h)
    rw [pyIndexAux, beq_false_of_ne hab, cond_false,
      pyIndexAux_of_not_mem t (n + 1) hat]

lemma vocabIndex_of_mem {s : String} (h : s ∈ vocab) :
    vocabIndex s = .ok (vocab.indexOf s) := by
  simpa using pyIndexAux_of_mem vocab 0 h

lemma vocabIndex_of_not_mem {s : String} (h : s ∉ vocab) :
    vocabIndex s = .error "ValueError" :=
  pyIndexAux_of_not_mem vocab 0 h

/-! ### Vocabulary block lengths and element positions -/

lemma length_note_on_vocab : note_on_vocab.length = 2048 := by
  rw [note_on_vocab, List.flatMap, List.length_flatten]
  simp [Function.comp_def, max_instruments, note_on_events]

lemma length_note_off_vocab : note_off_vocab.length = 2048 := by
  rw [note_off_vocab, List.flatMap, List.length_flatten]
  simp [Function.comp_def, max_instruments, note_off_events, note_on_events]

lemma length_time_shift_vocab : time_shift_vocab.length = 125 := by
  simp [time_shift_vocab, time_shift_events]

lemma length_velocity_vocab : velocity_vocab.length = 32 := by
  simp [velocity_vocab, velocity_events]

lemma length_instrument_vocab : instrument_vocab.length = 128 := by
  simp [instrument_vocab, instrument_events]

lemma vocab_cons :
    vocab = "<pad>" :: (note_on_vocab ++ (note_off_vocab ++ (time_shift_vocab ++
      (velocity_vocab ++ (instrument_vocab ++ ["<start>", "<end>"]))))) := by
  simp [vocab]

lemma vocab_length : vocab.length = 4384 := by
  rw [vocab_cons]
  simp [length_note_on_vocab, length_note_off_vocab, length_time_shift_vocab,
    length_velocity_vocab, length_instrument_vocab]

lemma vocab_size_eq : vocab_size = 4384 := by
  rw [vocab_size, vocab_length]

lemma base_idx_eq : base_idx = 4096 := by
  rw [base_idx, length_note_on_vocab, length_note_off_vocab]
  norm_num

/-- Element `c * i + n` of a flatMap whose chunks all have length `c`. -/
lemma getElem?_flatMap_const {α β : Type} (f : α → List β) (c : ℕ) :
    ∀ (L : List α), (∀ a ∈ L, (f a).length = c) →
      ∀ {i n : ℕ} (hi : i < L.length), n < c →
        (L.flatMap f)[c * i + n]? = (f (L.get ⟨i, hi⟩))[n]?
  | [], _, i, n, hi, hn => by simp at hi
  | a :: t, hf, 0, n, hi, hn => by
    have ha : (f a).length = c := hf a (List.mem_cons_self a t)
    simp only [List.flatMap_cons, Nat.mul_zero, Nat.zero_add]
    rw [List.getElem?_append_left (by omega)]
    rfl
  | a :: t, hf, i + 1, n, hi, hn => by
    have ha : (f a).length = c := hf a (List.mem_cons_self a t)
    have hft : ∀ x ∈ t, (f x).length = c := fun x hx =>
      hf x (List.mem_cons_of_mem a hx)
    have hit : i < t.length := by simpa using hi
    simp only [List.flatMap_cons]
    rw [List.getElem?_append_right (by rw [ha, Nat.mul_succ]; omega)]
    have harith : c * (i + 1) + n - (f a).length = c * i + n := by
      rw [ha, Nat.mul_succ]; omega
    rw [harith, getElem?_flatMap_const f c t hft hit hn]
    rfl

lemma noteOn_vocab_getElem {n i : ℕ} (hn : n < 128) (hi : i < 16) :
    note_on_vocab[128 * i + n]? =
      some ("note_on_" ++ Nat.repr n ++ "_" ++ Nat.repr i) := by
  rw [note_on_vocab]
  have hi' : i < (List.range max_instruments).length := by
    simpa [max_instruments] using hi
  rw [getElem?_flatMap_const _ 128 _ (fun a _ => by simp [note_on_events]) hi'
    hn]
  simp [List.getElem?_map, List.getElem?_range, hn, note_on_events,
    List.get_eq_getElem, List.getElem_range]

lemma noteOff_vocab_getElem {n i : ℕ} (hn : n < 128) (hi : i < 16) :
    note_off_vocab[128 * i + n]? =
      some ("note_off_" ++ Nat.repr n ++ "_" ++ Nat.repr i) := by
  rw [note_off_vocab]
  have hi' : i < (List.range max_instruments).length := by
    simpa [max_instruments] using hi
  rw [getElem?_flatMap_const _ 128 _ (fun a _ => by simp [note_off_events, note_on_events]) hi'
    hn]
  simp [List.getElem?_map, List.getElem?_range, hn, note_off_events, note_on_events,
    List.get_eq_getElem, List.getElem_range]

lemma vocab_getElem_pad : vocab[(0 : ℕ)]? = some "<pad>" := by
  rw [vocab_cons, List.getElem?_cons_zero]

lemma vocab_getElem_noteOn {n i : ℕ} (hn : n < 128) (hi : i < 16) :
    vocab[1 + (128 * i + n)]? =
      some ("note_on_" ++ Nat.repr n ++ "_" ++ Nat.repr i) := by
  rw [vocab_cons]
  have : 1 + (128 * i + n) = (128 * i + n) + 1 := by omega
  rw [this, List.getElem?_cons_succ,
    List.getElem?_append_left (by rw [length_note_on_vocab] <;> omega),
    noteOn_vocab_getElem hn hi]

lemma vocab_getElem_noteOff {n i : ℕ} (hn : n < 128) (hi : i < 16) :
    vocab[2049 + (128 * i + n)]? =
      some ("note_off_" ++ Nat.repr n ++ "_" ++ Nat.repr i) := by
  rw [vocab_cons]
  have : 2049 + (128 * i + n) = (2048 + (128 * i + n)) + 1 := by omega
  rw [this, List.getElem?_cons_succ,
    List.getElem?_append_right (by rw [length_note_on_vocab] <;> omega),
    length_note_on_vocab]
  have : 2048 + (128 * i + n) - 2048 = 128 * i + n := by omega
  rw [this, List.getElem?_append_left (by rw [length_note_off_vocab] <;> omega),
    noteOff_vocab_getElem hn hi]

lemma vocab_getElem_timeShift {u : ℕ} (hu : u < 125) :
    vocab[4097 + u]? = some ("time_shift_" ++ Nat.repr u) := by
  rw [vocab_cons]
  have : 4097 + u = (4096 + u) + 1 := by omega
  rw [this, List.getElem?_cons_succ,
    List.getElem?_append_right (by rw [length_note_on_vocab] <;> omega),
    length_note_on_vocab,
    List.getElem?_append_right (by rw [length_note_off_vocab] <;> omega),
    length_note_off_vocab]
  have : 4096 + u - 2048 - 2048 = u := by omega
  rw [this, List.getElem?_append_left (by rw [length_time_shift_vocab] <;> omega),
    time_shift_vocab]
  simp [List.getElem?_map, List.getElem?_range, hu, time_shift_events]

lemma vocab_getElem_velocity {b : ℕ} (hb : b < 32) :
    vocab[4222 + b]? = some ("set_velocity_" ++ Nat.repr b) := by
  rw [vocab_cons]
  have : 4222 + b = (4221 + b) + 1 := by omega
  rw [this, List.getElem?_cons_succ,
    List.getElem?_append_right (by rw [length_note_on_vocab] <;> omega),
    length_note_on_vocab,
    List.getElem?_append_right (by rw [length_note_off_vocab] <;> omega),
    length_note_off_vocab,
    List.getElem?_append_right (by rw [length_time_shift_vocab] <;> omega),
    length_time_shift_vocab]
  have : 4221 + b - 2048 - 2048 - 125 = b := by omega
  rw [this, List.getElem?_append_left (by rw [length_velocity_vocab] <;> omega),
    velocity_vocab]
  simp [List.getElem?_map, List.getElem?_range, hb, velocity_events]

lemma vocab_getElem_instrument {p : ℕ} (hp : p < 128) :
    vocab[4254 + p]? = some ("set_instrument_" ++ Nat.repr p) := by
  rw [vocab_cons]
  have : 4254 + p = (4253 + p) + 1 := by omega
  rw [this, List.getElem?_cons_succ,
    List.getElem?_append_right (by rw [length_note_on_vocab] <;> omega),
    length_note_on_vocab,
    List.getElem?_append_right (by rw [length_note_off_vocab] <;> omega),
    length_note_off_vocab,
    List.getElem?_append_right (by rw [length_time_shift_vocab] <;> omega),
    length_time_shift_vocab,
    List.getElem?_append_right (by rw [length_velocity_vocab] <;> omega),
    length_velocity_vocab]
  have : 4253 + p - 2048 - 2048 - 125 - 32 = p := by omega
  rw [this, List.getElem?_append_left (by rw [length_instrument_vocab] <;> omega),
    instrument_vocab]
  simp [List.getElem?_map, List.getElem?_range, hp, instrument_events]

lemma vocab_getElem_start : vocab[(4382 : ℕ)]? = some "<start>" := by
  rw [vocab_cons]
  have : (4382 : ℕ) = 4381 + 1 := by omega
  rw [this, List.getElem?_cons_succ,
    List.getElem?_append_right (by rw [length_note_on_vocab] <;> omega),
    length_note_on_vocab,
    List.getElem?_append_right (by rw [length_note_off_vocab] <;> omega),
    length_note_off_vocab,
    List.getElem?_append_right (by rw [length_time_shift_vocab] <;> omega),
    length_time_shift_vocab,
    List.getElem?_append_right (by rw [length_velocity_vocab] <;> omega),
    length_velocity_vocab,
    List.getElem?_append_right (by rw [length_instrument_vocab] <;> omega),
    length_instrument_vocab]
  have : 4381 - 2048 - 2048 - 125 - 32 - 128 = 0 := by omega
  rw [this, List.getElem?_cons_zero]

lemma vocab_getElem_end : vocab[(4383 : ℕ)]? = some "<end>" := by
  rw [vocab_cons]
  have : (4383 : ℕ) = 4382 + 1 := by omega
  rw [this, List.getElem?_cons_succ,
    List.getElem?_append_right (by rw [length_note_on_vocab] <;> omega),
    length_note_on_vocab,
    List.getElem?_append_right (by rw [length_note_off_vocab] <;> omega),
    length_note_off_vocab,
    List.getElem?_append_right (by rw [length_time_shift_vocab] <;> omega),
    length_time_shift_vocab,
    List.getElem?_append_right (by rw [length_velocity_vocab] <;> omega),
    length_velocity_vocab,
    List.getElem?_append_right (by rw [length_instrument_vocab] <;> omega),
    length_instrument_vocab]
  have : 4382 - 2048 - 2048 - 125 - 32 - 128 = 0 + 1 := by omega
  rw [this, List.getElem?_cons_succ, List.getElem?_cons_zero]

/-! ### String facts about the token formats -/

deriving instance DecidableEq for Except

/-- Decimal representations of the numbers occurring as token parameters
(all < 128) contain no underscore. -/
lemma repr_no_underscore : ∀ n < 128, '_' ∉ (Nat.repr n).data := by decide

/-- `pyInt` parses back the decimal representation of any parameter
value (all < 128). -/
lemma pyInt_repr : ∀ n < 128, pyInt (Nat.repr n) = .ok (n : ℤ) := by decide

lemma repr_inj128 {a b : ℕ} (ha : a < 128) (hb : b < 128)
    (h : Nat.repr a = Nat.repr b) : a = b := by
  have h1 := pyInt_repr a ha
  have h2 := pyInt_repr b hb
  rw [h, h2] at h1
  exact_mod_cast ((Except.ok.injEq _ _).mp h1).symm

lemma isPrefixOf_self_append : ∀ (p r : List Char), p.isPrefixOf (p ++ r) = true
  | [], _ => by simp [List.isPrefixOf]
  | c :: cs, r => by
    rw [List.cons_append, List.isPrefixOf_cons₂]
    simp [isPrefixOf_self_append cs r]

/-- `startswith` holds for any extension of the prefix itself. -/
lemma startsWith_self_append (p r : String) : pyStartsWith (p ++ r) p = true := by
  rw [pyStartsWith, String.data_append]
  exact isPrefixOf_self_append p.data r.data

/-- A prefix test fails on any extension of `t` when `p` and `t` disagree at
some position inside both. -/
lemma isPrefixOf_append_ne (j : ℕ) :
    ∀ {p t : List Char} (hjp : j < p.length) (hjt : j < t.length),
      p.get ⟨j, hjp⟩ ≠ t.get ⟨j, hjt⟩ →
        ∀ r, p.isPrefixOf (t ++ r) = false := by
  induction j with
  | zero =>
    intro p t hjp hjt hne r
    match p, t, hjp, hjt, hne with
    | c :: cs, d :: ds, _, _, hne =>
      rw [List.cons_append, List.isPrefixOf_cons₂]
      have : (c == d) = false := beq_false_of_ne (by simpa using hne)
      simp [this]
  | succ j ih =>
    intro p t hjp hjt hne r
    match p, t, hjp, hjt, hne with
    | c :: cs, d :: ds, hp, ht, hne =>
      rw [List.cons_append, List.isPrefixOf_cons₂]
      rcases hcd : (c == d) with _ | _
      · simp
      · have hp' : j < cs.length := Nat.lt_of_succ_lt_succ (by simpa using hp)
        have ht' : j < ds.length := Nat.lt_of_succ_lt_succ (by simpa using ht)
        have hne' : cs.get ⟨j, hp'⟩ ≠ ds.get ⟨j, ht'⟩ := by simpa using hne
        simpa using ih hp' ht' hne' r

/-- Two strings with a disagreement inside both of two leading chunks stay
different whatever follows. -/
lemma append_ne_append (j : ℕ) {t1 t2 : List Char}
    (hj1 : j < t1.length) (hj2 : j < t2.length)
    (hne : t1.get ⟨j, hj1⟩ ≠ t2.get ⟨j, hj2⟩) (r1 r2 : List Char) :
    t1 ++ r1 ≠ t2 ++ r2 := by
  intro h
  apply hne
  have e1 : (t1 ++ r1)[j]? = t1[j]? := List.getElem?_append_left hj1
  have e2 : (t2 ++ r2)[j]? = t2[j]? := List.getElem?_append_left hj2
  rw [h, e2] at e1
  rw [List.getElem?_eq_getElem hj2, List.getElem?_eq_getElem hj1] at e1
  simpa [List.get_eq_getElem] using (Option.some.injEq _ _).mp e1.symm

/-- Splitting at an underscore-free first chunk. -/
lemma usplit : ∀ {a c : List Char} {b d : List Char}, '_' ∉ a → '_' ∉ c →
    a ++ '_' :: b = c ++ '_' :: d → a = c ∧ b = d := by
  intro a
  induction a with
  | nil =>
    intro c b d _ hc h
    cases c with
    | nil =>
      refine ⟨rfl, ?_⟩
      simpa using h
    | cons x cs =>
      exfalso
      simp only [List.nil_append, List.cons_append, List.cons.injEq] at h
      exact hc (h.1 ▸ List.mem_cons_self x cs)
  | cons x as ih =>
    intro c b d ha hc h
    cases c with
    | nil =>
      exfalso
      simp only [List.cons_append, List.nil_append, List.cons.injEq] at h
      exact ha (h.1.symm ▸ List.mem_cons_self x as)
    | cons y cs =>
      simp only [List.cons_append, List.cons.injEq] at h
      have has : '_' ∉ as := fun hmem => ha (List.mem_cons_of_mem x hmem)
      have hcs : '_' ∉ cs := fun hmem => hc (List.mem_cons_of_mem y hmem)
      obtain ⟨h1, h2⟩ := ih has hcs h.2
      exact ⟨by rw [h.1, h1], h2⟩

lemma string_mk_data (s : String) : String.mk s.data = s := rfl

lemma string_eq_of_data {s t : String} (h : s.data = t.data) : s = t := by
  have := congrArg String.mk h
  rwa [string_mk_data, string_mk_data] at this

/-- Normal form of the two-parameter note token strings. -/
lemma note_str_data (tag : String) (n i : ℕ) :
    (tag ++ Nat.repr n ++ "_" ++ Nat.repr i).data =
      tag.data ++ ((Nat.repr n).data ++ '_' :: (Nat.repr i).data) := by
  simp [String.data_append, List.append_assoc]

/-- Normal form of the one-parameter token strings. -/
lemma tok1_str_data (tag : String) (u : ℕ) :
    (tag ++ Nat.repr u).data = tag.data ++ (Nat.repr u).data := by
  simp [String.data_append]

/-- Injectivity of the two-parameter token format at a fixed tag. -/
lemma tag2_inj {tag : String} {n i n' i' : ℕ}
    (hn : n < 128) (hi : i < 128) (hn' : n' < 128) (hi' : i' < 128)
    (h : tag ++ Nat.repr n ++ "_" ++ Nat.repr i =
      tag ++ Nat.repr n' ++ "_" ++ Nat.repr i') : n = n' ∧ i = i' := by
  have hd := congrArg String.data h
  rw [note_str_data, note_str_data] at hd
  have hd2 := List.append_cancel_left hd
  obtain ⟨e1, e2⟩ := usplit (repr_no_underscore n hn) (repr_no_underscore n' hn') hd2
  constructor
  · exact repr_inj128 hn hn' (string_eq_of_data e1)
  · exact repr_inj128 hi hi' (string_eq_of_data e2)

/-- Injectivity of the one-parameter token format at a fixed tag. -/
lemma tag1_inj {tag : String} {u u' : ℕ} (hu : u < 128) (hu' : u' < 128)
    (h : tag ++ Nat.repr u = tag ++ Nat.repr u') : u = u' := by
  have hd := congrArg String.data h
  rw [tok1_str_data, tok1_str_data] at hd
  exact repr_inj128 hu hu' (string_eq_of_data (List.append_cancel_left hd))

/-- Different tagged strings whose tags disagree at position `j`. -/
lemma tagged_ne (j : ℕ) {t1 t2 : String} (r1 r2 : String)
    (hj1 : j < t1.data.length) (hj2 : j < t2.data.length)
    (hne : t1.data.get ⟨j, hj1⟩ ≠ t2.data.get ⟨j, hj2⟩) :
    t1 ++ r1 ≠ t2 ++ r2 := by
  intro h
  have hd := congrArg String.data h
  rw [String.data_append, String.data_append] at hd
  exact append_ne_append j hj1 hj2 hne _ _ hd

/-- A tagged string differs from a literal disagreeing at position `j`. -/
lemma tagged_ne_lit (j : ℕ) {t l : String} (r : String)
    (hj1 : j < t.data.length) (hj2 : j < l.data.length)
    (hne : t.data.get ⟨j, hj1⟩ ≠ l.data.get ⟨j, hj2⟩) :
    t ++ r ≠ l := by
  intro h
  have hd := congrArg String.data h
  rw [String.data_append] at hd
  apply hne
  have e1 : (t.data ++ r.data)[j]? = t.data[j]? := List.getElem?_append_left hj1
  rw [hd] at e1
  rw [List.getElem?_eq_getElem hj2, List.getElem?_eq_getElem hj1] at e1
  simpa [List.get_eq_getElem] using ((Option.some.injEq _ _).mp e1).symm

/-- A two-parameter token string, reassociated to tag-plus-rest form. -/
lemma note_str_assoc (tag : String) (n i : ℕ) :
    tag ++ Nat.repr n ++ "_" ++ Nat.repr i =
      tag ++ (Nat.repr n ++ ("_" ++ Nat.repr i)) := by
  rw [String.append_assoc, String.append_assoc]

/-! ### Membership in the vocabulary blocks -/

lemma mem_note_on_vocab {s : String} :
    s ∈ note_on_vocab ↔
      ∃ i, i < 16 ∧ ∃ n, n < 128 ∧
        s = "note_on_" ++ Nat.repr n ++ "_" ++ Nat.repr i := by
  simp only [note_on_vocab, List.mem_flatMap, List.mem_map, List.mem_range,
    max_instruments, note_on_events]
  constructor
  · rintro ⟨i, hi, n, hn, rfl⟩
    exact ⟨i, hi, n, hn, rfl⟩
  · rintro ⟨i, hi, n, hn, rfl⟩
    exact ⟨i, hi, n, hn, rfl⟩

lemma mem_note_off_vocab {s : String} :
    s ∈ note_off_vocab ↔
      ∃ i, i < 16 ∧ ∃ n, n < 128 ∧
        s = "note_off_" ++ Nat.repr n ++ "_" ++ Nat.repr i := by
  simp only [note_off_vocab, List.mem_flatMap, List.mem_map, List.mem_range,
    max_instruments, note_off_events, note_on_events]
  constructor
  · rintro ⟨i, hi, n, hn, rfl⟩
    exact ⟨i, hi, n, hn, rfl⟩
  · rintro ⟨i, hi, n, hn, rfl⟩
    exact ⟨i, hi, n, hn, rfl⟩

lemma mem_time_shift_vocab {s : String} :
    s ∈ time_shift_vocab ↔ ∃ u, u < 125 ∧ s = "time_shift_" ++ Nat.repr u := by
  simp only [time_shift_vocab, List.mem_map, List.mem_range, time_shift_events]
  constructor
  · rintro ⟨u, hu, rfl⟩
    exact ⟨u, hu, rfl⟩
  · rintro ⟨u, hu, rfl⟩
    exact ⟨u, hu, rfl⟩

lemma mem_velocity_vocab {s : String} :
    s ∈ velocity_vocab ↔ ∃ b, b < 32 ∧ s = "set_velocity_" ++ Nat.repr b := by
  simp only [velocity_vocab, List.mem_map, List.mem_range, velocity_events]
  constructor
  · rintro ⟨b, hb, rfl⟩
    exact ⟨b, hb, rfl⟩
  · rintro ⟨b, hb, rfl⟩
    exact ⟨b, hb, rfl⟩

lemma mem_instrument_vocab {s : String} :
    s ∈ instrument_vocab ↔
      ∃ p, p < 128 ∧ s = "set_instrument_" ++ Nat.repr p := by
  simp only [instrument_vocab, List.mem_map, List.mem_range, instrument_events]
  constructor
  · rintro ⟨p, hp, rfl⟩
    exact ⟨p, hp, rfl⟩
  · rintro ⟨p, hp, rfl⟩
    exact ⟨p, hp, rfl⟩

lemma mem_vocab_iff {s : String} :
    s ∈ vocab ↔ s = "<pad>" ∨ s ∈ note_on_vocab ∨ s ∈ note_off_vocab ∨
      s ∈ time_shift_vocab ∨ s ∈ velocity_vocab ∨ s ∈ instrument_vocab ∨
      s = "<start>" ∨ s = "<end>" := by
  rw [vocab_cons]
  simp [or_assoc]

/-! ### The vocabulary has no duplicates -/

lemma nodup_tag2_block (tag : String) :
    ((List.range 16).flatMap fun inst =>
      (List.range 128).map fun n => tag ++ Nat.repr n ++ "_" ++ Nat.repr inst).Nodup := by
  rw [List.nodup_flatMap]
  constructor
  · intro i hi
    rw [List.mem_range] at hi
    refine List.Nodup.map_on ?_ (List.nodup_range _)
    intro n hn n' hn' h
    rw [List.mem_range] at hn hn'
    exact (tag2_inj hn (by omega) hn' (by omega) h).1
  · refine List.Pairwise.imp_of_mem ?_ (List.pairwise_lt_range _)
    intro i j hi hj hij
    rw [List.mem_range] at hi hj
    rw [Function.onFun, List.disjoint_left]
    rintro s hs hs'
    rw [List.mem_map] at hs hs'
    obtain ⟨n, hn, rfl⟩ := hs
    obtain ⟨n', hn', h⟩ := hs'
    rw [List.mem_range] at hn hn'
    have := (tag2_inj hn' (by omega) hn (by omega) h).2
    omega

lemma nodup_tag1_block (tag : String) (k : ℕ) (hk : k ≤ 128) :
    ((List.range k).map fun u => tag ++ Nat.repr u).Nodup := by
  refine List.Nodup.map_on ?_ (List.nodup_range _)
  intro u hu u' hu' h
  rw [List.mem_range] at hu hu'
  exact tag1_inj (by omega) (by omega) h

lemma nodup_note_on_vocab : note_on_vocab.Nodup := nodup_tag2_block "note_on_"

lemma nodup_note_off_vocab : note_off_vocab.Nodup := nodup_tag2_block "note_off_"

lemma nodup_time_shift_vocab : time_shift_vocab.Nodup :=
  nodup_tag1_block "time_shift_" 125 (by omega)

lemma nodup_velocity_vocab : velocity_vocab.Nodup :=
  nodup_tag1_block "set_velocity_" 32 (by omega)

lemma nodup_instrument_vocab : instrument_vocab.Nodup :=
  nodup_tag1_block "set_instrument_" 128 (by omega)

lemma disj_non_noff : note_on_vocab.Disjoint note_off_vocab := by
  intro s hs hs'
  rw [mem_note_on_vocab] at hs
  rw [mem_note_off_vocab] at hs'
  obtain ⟨i, hi, n, hn, rfl⟩ := hs
  obtain ⟨i', hi', n', hn', h⟩ := hs'
  rw [note_str_assoc, note_str_assoc] at h
  exact tagged_ne 6 _ _ (by decide) (by decide) (by decide) h.symm

lemma disj_non_ts : note_on_vocab.Disjoint time_shift_vocab := by
  intro s hs hs'
  rw [mem_note_on_vocab] at hs
  rw [mem_time_shift_vocab] at hs'
  obtain ⟨i, hi, n, hn, rfl⟩ := hs
  obtain ⟨u, hu, h⟩ := hs'
  rw [note_str_assoc] at h
  exact tagged_ne 0 _ _ (by decide) (by decide) (by decide) h.symm

lemma disj_non_sv : note_on_vocab.Disjoint velocity_vocab := by
  intro s hs hs'
  rw [mem_note_on_vocab] at hs
  rw [mem_velocity_vocab] at hs'
  obtain ⟨i, hi, n, hn, rfl⟩ := hs
  obtain ⟨b, hb, h⟩ := hs'
  rw [note_str_assoc] at h
  exact tagged_ne 0 _ _ (by decide) (by decide) (by decide) h.symm

lemma disj_non_si : note_on_vocab.Disjoint instrument_vocab := by
  intro s hs hs'
  rw [mem_note_on_vocab] at hs
  rw [mem_instrument_vocab] at hs'
  obtain ⟨i, hi, n, hn, rfl⟩ := hs
  obtain ⟨p, hp, h⟩ := hs'
  rw [note_str_assoc] at h
  exact tagged_ne 0 _ _ (by decide) (by decide) (by decide) h.symm

lemma disj_noff_ts : note_off_vocab.Disjoint time_shift_vocab := by
  intro s hs hs'
  rw [mem_note_off_vocab] at hs
  rw [mem_time_shift_vocab] at hs'
  obtain ⟨i, hi, n, hn, rfl⟩ := hs
  obtain ⟨u, hu, h⟩ := hs'
  rw [note_str_assoc] at h
  exact tagged_ne 0 _ _ (by decide) (by decide) (by decide) h.symm

lemma disj_noff_sv : note_off_vocab.Disjoint velocity_vocab := by
  intro s hs hs'
  rw [mem_note_off_vocab] at hs
  rw [mem_velocity_vocab] at hs'
  obtain ⟨i, hi, n, hn, rfl⟩ := hs
  obtain ⟨b, hb, h⟩ := hs'
  rw [note_str_assoc] at h
  exact tagged_ne 0 _ _ (by decide) (by decide) (by decide) h.symm

lemma disj_noff_si : note_off_vocab.Disjoint instrument_vocab := by
  intro s hs hs'
  rw [mem_note_off_vocab] at hs
  rw [mem_instrument_vocab] at hs'
  obtain ⟨i, hi, n, hn, rfl⟩ := hs
  obtain ⟨p, hp, h⟩ := hs'
  rw [note_str_assoc] at h
  exact tagged_ne 0 _ _ (by decide) (by decide) (by decide) h.symm

lemma disj_ts_sv : time_shift_vocab.Disjoint velocity_vocab := by
  intro s hs hs'
  rw [mem_time_shift_vocab] at hs
  rw [mem_velocity_vocab] at hs'
  obtain ⟨u, hu, rfl⟩ := hs
  obtain ⟨b, hb, h⟩ := hs'
  exact tagged_ne 0 _ _ (by decide) (by decide) (by decide) h.symm

lemma disj_ts_si : time_shift_vocab.Disjoint instrument_vocab := by
  intro s hs hs'
  rw [mem_time_shift_vocab] at hs
  rw [mem_instrument_vocab] at hs'
  obtain ⟨u, hu, rfl⟩ := hs
  obtain ⟨p, hp, h⟩ := hs'
  exact tagged_ne 0 _ _ (by decide) (by decide) (by decide) h.symm

lemma disj_sv_si : velocity_vocab.Disjoint instrument_vocab := by
  intro s hs hs'
  rw [mem_velocity_vocab] at hs
  rw [mem_instrument_vocab] at hs'
  obtain ⟨b, hb, rfl⟩ := hs
  obtain ⟨p, hp, h⟩ := hs'
  exact tagged_ne 4 _ _ (by decide) (by decide) (by decide) h.symm

/-- No token-format string equals one of the special bracket strings. -/
lemma tagged_ne_pad {t r : String}
    (h0 : 0 < t.data.length) (hne : t.data.get ⟨0, h0⟩ ≠ '<') :
    t ++ r ≠ "<pad>" ∧ t ++ r ≠ "<start>" ∧ t ++ r ≠ "<end>" :=
  ⟨tagged_ne_lit 0 r h0 (by decide) (by simpa using hne),
   tagged_ne_lit 0 r h0 (by decide) (by simpa using hne),
   tagged_ne_lit 0 r h0 (by decide) (by simpa using hne)⟩

/-- Form of every vocabulary member, together with its special strings. -/
lemma vocab_member_forms {s : String} (h : s ∈ vocab) :
    s = "<pad>" ∨ s = "<start>" ∨ s = "<end>" ∨
      (∃ t r, s = t ++ r ∧
        (t = "note_on_" ∨ t = "note_off_" ∨ t = "time_shift_" ∨
          t = "set_velocity_" ∨ t = "set_instrument_")) := by
  rw [mem_vocab_iff] at h
  rcases h with h | h | h | h | h | h | h | h
  · exact Or.inl h
  · rw [mem_note_on_vocab] at h
    obtain ⟨i, _, n, _, rfl⟩ := h
    refine Or.inr (Or.inr (Or.inr ⟨"note_on_", _, note_str_assoc _ _ _, Or.inl rfl⟩))
  · rw [mem_note_off_vocab] at h
    obtain ⟨i, _, n, _, rfl⟩ := h
    exact Or.inr (Or.inr (Or.inr ⟨"note_off_", _, note_str_assoc _ _ _,
      Or.inr (Or.inl rfl)⟩))
  · rw [mem_time_shift_vocab] at h
    obtain ⟨u, _, rfl⟩ := h
    exact Or.inr (Or.inr (Or.inr ⟨"time_shift_", _, rfl,
      Or.inr (Or.inr (Or.inl rfl))⟩))
  · rw [mem_velocity_vocab] at h
    obtain ⟨b, _, rfl⟩ := h
    exact Or.inr (Or.inr (Or.inr ⟨"set_velocity_", _, rfl,
      Or.inr (Or.inr (Or.inr (Or.inl rfl)))⟩))
  · rw [mem_instrument_vocab] at h
    obtain ⟨p, _, rfl⟩ := h
    exact Or.inr (Or.inr (Or.inr ⟨"set_instrument_", _, rfl,
      Or.inr (Or.inr (Or.inr (Or.inr rfl)))⟩))
  · exact Or.inr (Or.inl h)
  · exact Or.inr (Or.inr (Or.inl h))

lemma pad_notin_blocks :
    "<pad>" ∉ note_on_vocab ∧ "<pad>" ∉ note_off_vocab ∧
      "<pad>" ∉ time_shift_vocab ∧ "<pad>" ∉ velocity_vocab ∧
      "<pad>" ∉ instrument_vocab := by
  refine ⟨?_, ?_, ?_, ?_, ?_⟩ <;> intro h
  · rw [mem_note_on_vocab] at h
    obtain ⟨i, _, n, _, h⟩ := h
    rw [note_str_assoc] at h
    exact (tagged_ne_pad (by decide) (by decide)).1 h.symm
  · rw [mem_note_off_vocab] at h
    obtain ⟨i, _, n, _, h⟩ := h
    rw [note_str_assoc] at h
    exact (tagged_ne_pad (by decide) (by decide)).1 h.symm
  · rw [mem_time_shift_vocab] at h
    obtain ⟨u, _, h⟩ := h
    exact (tagged_ne_pad (by decide) (by decide)).1 h.symm
  · rw [mem_velocity_vocab] at h
    obtain ⟨b, _, h⟩ := h
    exact (tagged_ne_pad (by decide) (by decide)).1 h.symm
  · rw [mem_instrument_vocab] at h
    obtain ⟨p, _, h⟩ := h
    exact (tagged_ne_pad (by decide) (by decide)).1 h.symm

lemma specials_notin_blocks {s : String} (hs : s = "<start>" ∨ s = "<end>") :
    s ∉ note_on_vocab ∧ s ∉ note_off_vocab ∧ s ∉ time_shift_vocab ∧
      s ∉ velocity_vocab ∧ s ∉ instrument_vocab := by
  refine ⟨?_, ?_, ?_, ?_, ?_⟩ <;> intro h
  · rw [mem_note_on_vocab] at h
    obtain ⟨i, _, n, _, h⟩ := h
    rcases hs with rfl | rfl <;> rw [note_str_assoc] at h
    · exact (tagged_ne_pad (by decide) (by decide)).2.1 h.symm
    · exact (tagged_ne_pad (by decide) (by decide)).2.2 h.symm
  · rw [mem_note_off_vocab] at h
    obtain ⟨i, _, n, _, h⟩ := h
    rcases hs with rfl | rfl <;> rw [note_str_assoc] at h
    · exact (tagged_ne_pad (by decide) (by decide)).2.1 h.symm
    · exact (tagged_ne_pad (by decide) (by decide)).2.2 h.symm
  · rw [mem_time_shift_vocab] at h
    obtain ⟨u, _, h⟩ := h
    rcases hs with rfl | rfl
    · exact (tagged_ne_pad (by decide) (by decide)).2.1 h.symm
    · exact (tagged_ne_pad (by decide) (by decide)).2.2 h.symm
  · rw [mem_velocity_vocab] at h
    obtain ⟨b, _, h⟩ := h
    rcases hs with rfl | rfl
    · exact (tagged_ne_pad (by decide) (by decide)).2.1 h.symm
    · exact (tagged_ne_pad (by decide) (by decide)).2.2 h.symm
  · rw [mem_instrument_vocab] at h
    obtain ⟨p, _, h⟩ := h
    rcases hs with rfl | rfl
    · exact (tagged_ne_pad (by decide) (by decide)).2.1 h.symm
    · exact (tagged_ne_pad (by decide) (by decide)).2.2 h.symm

/-- The vocabulary list contains no duplicate token strings. -/
lemma vocab_nodup : vocab.Nodup := by
  rw [vocab_cons]
  rw [List.nodup_cons]
  constructor
  · intro h
    simp only [List.mem_append, List.mem_cons, List.mem_singleton,
      List.not_mem_nil, or_false] at h
    rcases h with h | h | h | h | h | h
    · exact pad_notin_blocks.1 h
    · exact pad_notin_blocks.2.1 h
    · exact pad_notin_blocks.2.2.1 h
    · exact pad_notin_blocks.2.2.2.1 h
    · exact pad_notin_blocks.2.2.2.2 h
    · rcases h with h | h
      · exact absurd h (by decide)
      · exact absurd h (by decide)
  rw [List.nodup_append]
  refine ⟨nodup_note_on_vocab, ?_, ?_⟩
  swap
  · intro s hs hmem
    simp only [List.mem_append, List.mem_cons, List.mem_singleton,
      List.not_mem_nil, or_false] at hmem
    rcases hmem with h | h | h | h | h
    · exact disj_non_noff hs h
    · exact disj_non_ts hs h
    · exact disj_non_sv hs h
    · exact disj_non_si hs h
    · rw [mem_note_on_vocab] at hs
      obtain ⟨i, _, n, _, rfl⟩ := hs
      rcases h with h | h
      · rw [note_str_assoc] at h
        exact (tagged_ne_pad (by decide) (by decide)).2.1 h
      · rw [note_str_assoc] at h
        exact (tagged_ne_pad (by decide) (by decide)).2.2 h
  rw [List.nodup_append]
  refine ⟨nodup_note_off_vocab, ?_, ?_⟩
  swap
  · intro s hs hmem
    simp only [List.mem_append, List.mem_cons, List.mem_singleton,
      List.not_mem_nil, or_false] at hmem
    rcases hmem with h | h | h | h
    · exact disj_noff_ts hs h
    · exact disj_noff_sv hs h
    · exact disj_noff_si hs h
    · rw [mem_note_off_vocab] at hs
      obtain ⟨i, _, n, _, rfl⟩ := hs
      rcases h with h | h
      · rw [note_str_assoc] at h
        exact (tagged_ne_pad (by decide) (by decide)).2.1 h
      · rw [note_str_assoc] at h
        exact (tagged_ne_pad (by decide) (by decide)).2.2 h
  rw [List.nodup_append]
  refine ⟨nodup_time_shift_vocab, ?_, ?_⟩
  swap
  · intro s hs hmem
    simp only [List.mem_append, List.mem_cons, List.mem_singleton,
      List.not_mem_nil, or_false] at hmem
    rcases hmem with h | h | h
    · exact disj_ts_sv hs h
    · exact disj_ts_si hs h
    · rw [mem_time_shift_vocab] at hs
      obtain ⟨u, _, rfl⟩ := hs
      rcases h with h | h
      · exact (tagged_ne_pad (by decide) (by decide)).2.1 h
      · exact (tagged_ne_pad (by decide) (by decide)).2.2 h
  rw [List.nodup_append]
  refine ⟨nodup_velocity_vocab, ?_, ?_⟩
  swap
  · intro s hs hmem
    simp only [List.mem_append, List.mem_cons, List.mem_singleton,
      List.not_mem_nil, or_false] at hmem
    rcases hmem with h | h
    · exact disj_sv_si hs h
    · rw [mem_velocity_vocab] at hs
      obtain ⟨b, _, rfl⟩ := hs
      rcases h with h | h
      · exact (tagged_ne_pad (by decide) (by decide)).2.1 h
      · exact (tagged_ne_pad (by decide) (by decide)).2.2 h
  rw [List.nodup_append]
  refine ⟨nodup_instrument_vocab, by decide, ?_⟩
  intro s hs hmem
  simp only [List.mem_cons, List.mem_singleton, List.not_mem_nil, or_false] at hmem
  rw [mem_instrument_vocab] at hs
  obtain ⟨p, _, rfl⟩ := hs
  rcases hmem with h | h
  · exact (tagged_ne_pad (by decide) (by decide)).2.1 h
  · exact (tagged_ne_pad (by decide) (by decide)).2.2 h

/-! ### Index values of the vocabulary entries -/

lemma vocab_indexOf_of_getElem {k : ℕ} {s : String} (h : vocab[k]? = some s) :
    vocab.indexOf s = k := by
  obtain ⟨hk, hs⟩ := List.getElem?_eq_some.mp h
  rw [← hs]
  exact List.indexOf_getElem vocab_nodup k hk

lemma vocabIndex_noteOn {n i : ℕ} (hn : n < 128) (hi : i < 16) :
    vocabIndex ("note_on_" ++ Nat.repr n ++ "_" ++ Nat.repr i) =
      .ok (1 + (128 * i + n)) := by
  have h := vocab_getElem_noteOn hn hi
  rw [vocabIndex_of_mem (List.getElem?_mem h), vocab_indexOf_of_getElem h]

lemma vocabIndex_noteOff {n i : ℕ} (hn : n < 128) (hi : i < 16) :
    vocabIndex ("note_off_" ++ Nat.repr n ++ "_" ++ Nat.repr i) =
      .ok (2049 + (128 * i + n)) := by
  have h := vocab_getElem_noteOff hn hi
  rw [vocabIndex_of_mem (List.getElem?_mem h), vocab_indexOf_of_getElem h]

lemma vocabIndex_velocity {b : ℕ} (hb : b < 32) :
    vocabIndex ("set_velocity_" ++ Nat.repr b) = .ok (4222 + b) := by
  have h := vocab_getElem_velocity hb
  rw [vocabIndex_of_mem (List.getElem?_mem h), vocab_indexOf_of_getElem h]

lemma vocabIndex_instrument {p : ℕ} (hp : p < 128) :
    vocabIndex ("set_instrument_" ++ Nat.repr p) = .ok (4254 + p) := by
  have h := vocab_getElem_instrument hp
  rw [vocabIndex_of_mem (List.getElem?_mem h), vocab_indexOf_of_getElem h]

lemma pad_token_eq : pad_token = 0 :=
  vocab_indexOf_of_getElem vocab_getElem_pad

lemma start_token_eq : start_token = 4382 :=
  vocab_indexOf_of_getElem vocab_getElem_start

lemma end_token_eq : end_token = 4383 :=
  vocab_indexOf_of_getElem vocab_getElem_end

/-- A note-on string with an instrument number in [16,128) is not in the
vocabulary: this is the encode-time lookup miss for unrepresentable
programs. -/
lemma noteOn_hi_not_mem {n i : ℕ} (hn : n < 128) (hi16 : 16 ≤ i)
    (hi : i < 128) :
    ("note_on_" ++ Nat.repr n ++ "_" ++ Nat.repr i) ∉ vocab := by
  intro h
  rw [mem_vocab_iff] at h
  rcases h with h | h | h | h | h | h | h | h
  · rw [note_str_assoc] at h
    exact (tagged_ne_pad (by decide) (by decide)).1 h
  · rw [mem_note_on_vocab] at h
    obtain ⟨i', hi', n', hn', h⟩ := h
    have h2 : n = n' ∧ i = i' := tag2_inj hn (by omega) hn' (by omega) h
    omega
  · rw [mem_note_off_vocab] at h
    obtain ⟨i', hi', n', hn', h⟩ := h
    rw [note_str_assoc, note_str_assoc] at h
    exact tagged_ne 6 _ _ (by decide) (by decide) (by decide) h
  · rw [mem_time_shift_vocab] at h
    obtain ⟨u, hu, h⟩ := h
    rw [note_str_assoc] at h
    exact tagged_ne 0 _ _ (by decide) (by decide) (by decide) h.symm
  · rw [mem_velocity_vocab] at h
    obtain ⟨b, hb, h⟩ := h
    rw [note_str_assoc] at h
    exact tagged_ne 0 _ _ (by decide) (by decide) (by decide) h.symm
  · rw [mem_instrument_vocab] at h
    obtain ⟨p, hp, h⟩ := h
    rw [note_str_assoc] at h
    exact tagged_ne 0 _ _ (by decide) (by decide) (by decide) h.symm
  · rw [note_str_assoc] at h
    exact (tagged_ne_pad (by decide) (by decide)).2.1 h
  · rw [note_str_assoc] at h
    exact (tagged_ne_pad (by decide) (by decide)).2.2 h

/-- Same lookup miss for note-off strings. -/
lemma noteOff_hi_not_mem {n i : ℕ} (hn : n < 128) (hi16 : 16 ≤ i)
    (hi : i < 128) :
    ("note_off_" ++ Nat.repr n ++ "_" ++ Nat.repr i) ∉ vocab := by
  intro h
  rw [mem_vocab_iff] at h
  rcases h with h | h | h | h | h | h | h | h
  · rw [note_str_assoc] at h
    exact (tagged_ne_pad (by decide) (by decide)).1 h
  · rw [mem_note_on_vocab] at h
    obtain ⟨i', hi', n', hn', h⟩ := h
    rw [note_str_assoc, note_str_assoc] at h
    exact tagged_ne 6 _ _ (by decide) (by decide) (by decide) h
  · rw [mem_note_off_vocab] at h
    obtain ⟨i', hi', n', hn', h⟩ := h
    have h2 : n = n' ∧ i = i' := tag2_inj hn (by omega) hn' (by omega) h
    omega
  · rw [mem_time_shift_vocab] at h
    obtain ⟨u, hu, h⟩ := h
    rw [note_str_assoc] at h
    exact tagged_ne 0 _ _ (by decide) (by decide) (by decide) h.symm
  · rw [mem_velocity_vocab] at h
    obtain ⟨b, hb, h⟩ := h
    rw [note_str_assoc] at h
    exact tagged_ne 0 _ _ (by decide) (by decide) (by decide) h.symm
  · rw [mem_instrument_vocab] at h
    obtain ⟨p, hp, h⟩ := h
    rw [note_str_assoc] at h
    exact tagged_ne 0 _ _ (by decide) (by decide) (by decide) h.symm
  · rw [note_str_assoc] at h
    exact (tagged_ne_pad (by decide) (by decide)).2.1 h
  · rw [note_str_assoc] at h
    exact (tagged_ne_pad (by decide) (by decide)).2.2 h

/-! ### Quantizer arithmetic -/

lemma LTH_eq : LTH = 1000 := rfl

lemma DIV_eq : DIV = 8 := rfl

lemma BIN_STEP_eq : BIN_STEP = 4 := rfl

lemma round_eq_floor_add_half (a : ℚ) : round_ a = ⌊a + 1 / 2⌋ := by
  rw [round_]
  rcases le_or_lt ((1 : ℚ) / 2) (Int.fract a) with h | h
  · rw [if_pos h]
    have ha : a + 1 / 2 = (Int.fract a - 1 / 2) + ((⌊a⌋ + 1 : ℤ) : ℚ) := by
      rw [Int.fract]
      push_cast
      ring
    rw [ha, Int.floor_add_int]
    have h0 : ⌊Int.fract a - 1 / 2⌋ = 0 := by
      rw [Int.floor_eq_zero_iff]
      constructor
      · simpa using h
      · have := Int.fract_lt_one a
        simp only [Set.mem_Ico] at *
        linarith
    omega
  · rw [if_neg (by linarith)]
    have ha : a + 1 / 2 = (Int.fract a + 1 / 2) + ((⌊a⌋ : ℤ) : ℚ) := by
      rw [Int.fract]
      push_cast
      ring
    rw [ha, Int.floor_add_int]
    have h0 : ⌊Int.fract a + 1 / 2⌋ = 0 := by
      rw [Int.floor_eq_zero_iff]
      constructor
      · have := Int.fract_nonneg a
        simp only [Set.mem_Ico] at *
        linarith
      · simp only [Set.mem_Ico] at *
        linarith
    omega

lemma floor_nat_div8 (k : ℕ) : ⌊(k : ℚ) / 8⌋ = ((k / 8 : ℕ) : ℤ) := by
  have hmod := Nat.div_add_mod k 8
  have hlt : k % 8 < 8 := Nat.mod_lt k (by norm_num)
  rw [Int.floor_eq_iff]
  constructor
  · rw [le_div_iff (by norm_num : (0 : ℚ) < 8)]
    exact_mod_cast Nat.div_mul_le_self k 8
  · rw [div_lt_iff (by norm_num : (0 : ℚ) < 8)]
    have hk : k < (k / 8 + 1) * 8 := by omega
    exact_mod_cast hk

lemma round_div8 (m : ℕ) : round_ ((m : ℚ) / 8) = (((m + 4) / 8 : ℕ) : ℤ) := by
  rw [round_eq_floor_add_half]
  have : (m : ℚ) / 8 + 1 / 2 = ((m + 4 : ℕ) : ℚ) / 8 := by
    push_cast
    ring
  rw [this, floor_nat_div8]

/-- The pure value of `time_cutter` at the module defaults. -/
def timeUnits (t : ℕ) : List ℤ :=
  List.replicate (t / 1000) 125 ++
    (if 0 < (t % 1000 + 4) / 8 then [(((t % 1000 + 4) / 8 : ℕ) : ℤ)] else [])

lemma time_cutter_eq (t : ℕ) : time_cutter t LTH DIV = .ok (timeUnits t) := by
  rw [time_cutter, LTH_eq, DIV_eq, if_neg (by norm_num)]
  have hblock : round_ (((1000 : ℕ) : ℚ) / ((8 : ℕ) : ℚ)) = 125 := by
    have := round_div8 1000
    norm_num at this ⊢
    convert this using 2
  have hleft : round_ (((t % 1000 : ℕ) : ℚ) / ((8 : ℕ) : ℚ)) =
      (((t % 1000 + 4) / 8 : ℕ) : ℤ) := by
    have := round_div8 (t % 1000)
    norm_num at this ⊢
    convert this using 2
  rw [hleft]
  congr 1
  rw [timeUnits]
  congr 1
  · rw [List.map_const', hblock, List.length_range]
  · by_cases h : 0 < (t % 1000 + 4) / 8
    · have hz : (0 : ℤ) < (((t % 1000 + 4) / 8 : ℕ) : ℤ) := by exact_mod_cast h
      rw [if_pos hz, if_pos h]
    · have hz : ¬(0 : ℤ) < (((t % 1000 + 4) / 8 : ℕ) : ℤ) := by
        simp only [not_lt] at h ⊢
        exact_mod_cast h
      rw [if_neg hz, if_neg h]

lemma timeUnits_mem_bounds {t : ℕ} {u : ℤ} (hu : u ∈ timeUnits t) :
    1 ≤ u ∧ u ≤ 125 := by
  rw [timeUnits] at hu
  rcases List.mem_append.mp hu with h | h
  · rw [List.eq_of_mem_replicate h]
    omega
  · by_cases hx : 0 < (t % 1000 + 4) / 8
    · rw [if_pos hx, List.mem_singleton] at h
      subst h
      have h1 : t % 1000 < 1000 := Nat.mod_lt t (by norm_num)
      have h2 : (t % 1000 + 4) / 8 ≤ 125 := by omega
      omega
    · rw [if_neg hx] at h
      simp at h

/-- Total quantization error of `time_cutter`: the unit counts times `DIV`
sum to the input up to `DIV / 2 = 4` in total. -/
lemma timeUnits_sum_bound (t : ℕ) :
    (((timeUnits t).map (fun u => u * (DIV : ℤ))).sum - (t : ℤ)).natAbs ≤ DIV / 2 := by
  rw [timeUnits, DIV_eq]
  rw [List.map_append, List.sum_append, List.map_replicate, List.sum_replicate]
  have hmod := Nat.div_add_mod t 1000
  have hlt : t % 1000 < 1000 := Nat.mod_lt t (by norm_num)
  have hmod8 := Nat.div_add_mod (t % 1000 + 4) 8
  have hlt8 : (t % 1000 + 4) % 8 < 8 := Nat.mod_lt _ (by norm_num)
  by_cases h : 0 < (t % 1000 + 4) / 8
  · rw [if_pos h]
    simp only [List.map_cons, List.map_nil, List.sum_cons, List.sum_nil,
      nsmul_eq_mul, List.append_nil, Nat.cast_ofNat]
    push_cast
    omega
  · rw [if_neg h]
    simp only [List.map_nil, List.sum_nil, nsmul_eq_mul, List.append_nil,
      Nat.cast_ofNat]
    push_cast
    omega

/-! ### time_to_events -/

/-- The Python lookup `vocab[base_idx + i]` resolves, for every unit count
`i` produced by `time_cutter`, to the token one unit lower. -/
lemma pyGet_vocab_shift {i : ℤ} (h1 : 1 ≤ i) (h2 : i ≤ 125) :
    pyGet vocab (base_idx + i) = .ok ("time_shift_" ++ Nat.repr (i.toNat - 1)) := by
  have hnn : (0 : ℤ) ≤ base_idx + i := by rw [base_idx_eq]; omega
  apply pyGet_of_getElem hnn
  have harith : (base_idx + i).toNat = 4097 + (i.toNat - 1) := by
    rw [base_idx_eq]; omega
  rw [harith]
  exact vocab_getElem_timeShift (by omega)

lemma timeEventsAux_ok {l : List ℤ} (h : ∀ u ∈ l, 1 ≤ u ∧ u ≤ 125) :
    timeEventsAux l =
      .ok (l.map (fun u => "time_shift_" ++ Nat.repr (u.toNat - 1)),
        l.map (fun u => base_idx + u)) := by
  induction l with
  | nil => rfl
  | cons u rest ih =>
    have hu := h u (List.mem_cons_self u rest)
    have hrest : ∀ x ∈ rest, 1 ≤ x ∧ x ≤ 125 := fun x hx =>
      h x (List.mem_cons_of_mem u hx)
    rw [timeEventsAux, pyGet_vocab_shift hu.1 hu.2, ih hrest]
    simp

/-- Full characterization of `time_to_events` at the module defaults. -/
lemma time_to_events_eq (d : ℕ) :
    time_to_events d =
      .ok ((timeUnits d).map (fun u => "time_shift_" ++ Nat.repr (u.toNat - 1)),
        (timeUnits d).map (fun u => base_idx + u)) := by
  rw [time_to_events, time_cutter_eq]
  exact timeEventsAux_ok (fun u hu => timeUnits_mem_bounds hu)

/-! ### Parsing facts about the produced token strings -/

lemma pySplitAux_no_sep {sep : Char} :
    ∀ {a : List Char}, sep ∉ a → pySplitAux sep a = (a, [])
  | [], _ => rfl
  | c :: r, h => by
    have hc : ¬(c = sep) := fun hh => h (hh ▸ List.mem_cons_self c r)
    have hr : sep ∉ r := fun hh => h (List.mem_cons_of_mem c hh)
    rw [pySplitAux]
    simp only [pySplitAux_no_sep hr, if_neg hc]

lemma pySplitAux_sep_mid {sep : Char} :
    ∀ {a : List Char}, sep ∉ a → ∀ (b : List Char),
      pySplitAux sep (a ++ sep :: b) =
        (a, (pySplitAux sep b).1 :: (pySplitAux sep b).2)
  | [], _, b => by
    rw [List.nil_append, pySplitAux]
    simp
  | c :: r, h, b => by
    have hc : ¬(c = sep) := fun hh => h (hh ▸ List.mem_cons_self c r)
    have hr : sep ∉ r := fun hh => h (List.mem_cons_of_mem c hh)
    rw [List.cons_append, pySplitAux]
    simp only [pySplitAux_sep_mid hr b, if_neg hc]

lemma startsWith_ne (j : ℕ) {p t : String} (r : String)
    (hj1 : j < p.data.length) (hj2 : j < t.data.length)
    (hne : p.data.get ⟨j, hj1⟩ ≠ t.data.get ⟨j, hj2⟩) :
    pyStartsWith (t ++ r) p = false := by
  rw [pyStartsWith, String.data_append]
  exact isPrefixOf_append_ne j hj1 hj2 hne r.data

lemma notin_ctl {t : String} (r : String)
    (h0 : 0 < t.data.length) (hne : t.data.get ⟨0, h0⟩ ≠ '<') :
    (t ++ r) ∉ (["<pad>", "<start>", "<end>"] : List String) := by
  obtain ⟨h1, h2, h3⟩ := @tagged_ne_pad t r h0 hne
  simp [h1, h2, h3]

lemma pySplit_ts {u : ℕ} (hu : u < 128) :
    pySplit ("time_shift_" ++ Nat.repr u) '_' = ["time", "shift", Nat.repr u] := by
  rw [pySplit, tok1_str_data]
  have hd : ("time_shift_" : String).data =
      ['t', 'i', 'm', 'e', '_', 's', 'h', 'i', 'f', 't', '_'] := rfl
  rw [hd]
  simp only [List.cons_append, List.nil_append]
  simp [pySplitAux, pySplitAux_no_sep (repr_no_underscore u hu)]

lemma pySplit_sv {b : ℕ} (hb : b < 128) :
    pySplit ("set_velocity_" ++ Nat.repr b) '_' =
      ["set", "velocity", Nat.repr b] := by
  rw [pySplit, tok1_str_data]
  have hd : ("set_velocity_" : String).data =
      ['s', 'e', 't', '_', 'v', 'e', 'l', 'o', 'c', 'i', 't', 'y', '_'] := rfl
  rw [hd]
  simp only [List.cons_append, List.nil_append]
  simp [pySplitAux, pySplitAux_no_sep (repr_no_underscore b hb)]

lemma pySplit_si {p : ℕ} (hp : p < 128) :
    pySplit ("set_instrument_" ++ Nat.repr p) '_' =
      ["set", "instrument", Nat.repr p] := by
  rw [pySplit, tok1_str_data]
  have hd : ("set_instrument_" : String).data =
      ['s', 'e', 't', '_', 'i', 'n', 's', 't', 'r', 'u', 'm', 'e', 'n', 't', '_'] := rfl
  rw [hd]
  simp only [List.cons_append, List.nil_append]
  simp [pySplitAux, pySplitAux_no_sep (repr_no_underscore p hp)]

lemma pySplit_non {n i : ℕ} (hn : n < 128) (hi : i < 128) :
    pySplit ("note_on_" ++ Nat.repr n ++ "_" ++ Nat.repr i) '_' =
      ["note", "on", Nat.repr n, Nat.repr i] := by
  rw [pySplit]
  have hd : ("note_on_" ++ Nat.repr n ++ "_" ++ Nat.repr i).data =
      'n' :: 'o' :: 't' :: 'e' :: '_' :: 'o' :: 'n' :: '_' ::
        ((Nat.repr n).data ++ '_' :: (Nat.repr i).data) := by
    rw [note_str_data]
    rfl
  rw [hd]
  simp only [pySplitAux,
    pySplitAux_sep_mid (repr_no_underscore n hn) ((Nat.repr i).data),
    pySplitAux_no_sep (repr_no_underscore i hi)]
  simp

lemma pySplit_noff {n i : ℕ} (hn : n < 128) (hi : i < 128) :
    pySplit ("note_off_" ++ Nat.repr n ++ "_" ++ Nat.repr i) '_' =
      ["note", "off", Nat.repr n, Nat.repr i] := by
  rw [pySplit]
  have hd : ("note_off_" ++ Nat.repr n ++ "_" ++ Nat.repr i).data =
      'n' :: 'o' :: 't' :: 'e' :: '_' :: 'o' :: 'f' :: 'f' :: '_' ::
        ((Nat.repr n).data ++ '_' :: (Nat.repr i).data) := by
    rw [note_str_data]
    rfl
  rw [hd]
  simp only [pySplitAux,
    pySplitAux_sep_mid (repr_no_underscore n hn) ((Nat.repr i).data),
    pySplitAux_no_sep (repr_no_underscore i hi)]
  simp

/-! ### Decoder state updates and step lemmas -/

/-- `set_instrument` handling in `list_parser`: set the current instrument,
lazily creating its track seeded with a `program_change`. -/
def setInstrumentUpd (st : DecState) (p : ℤ) : DecState :=
  if hasTrack st.tracks p then { st with current_instrument := p }
  else
    { st with current_instrument := p,
              tracks := st.tracks ++
                [(p, [TrackMsg.program_change p (p % 16) 0])] }

/-- Track creation for a note on an instrument without a track yet. -/
def ensureTrackUpd (st : DecState) (k : ℤ) : DecState :=
  if hasTrack st.tracks k then st
  else
    { st with tracks := st.tracks ++
        [(k, [TrackMsg.program_change 0 (k % 16) 0])] }

/-- Note handling in `list_parser`: ensure the track, append the note
message with the pending delta, reset the delta. -/
def noteUpd (st : DecState) (isOn : Bool) (n k : ℤ) : DecState :=
  let st1 := ensureTrackUpd st k
  { st1 with delta_time := 0,
             tracks := appendToTrack st1.tracks k
               (TrackMsg.note isOn n (if isOn then st.current_velocity else 0)
                 (k % 16) st.delta_time) }

lemma decodeStep_pad (st : DecState) : decodeStep st "<pad>" = .ok st := by
  rw [decodeStep, if_pos (by decide)]

lemma decodeStep_start (st : DecState) : decodeStep st "<start>" = .ok st := by
  rw [decodeStep, if_pos (by decide)]

lemma decodeStep_end (st : DecState) : decodeStep st "<end>" = .ok st := by
  rw [decodeStep, if_pos (by decide)]

lemma bfalse {b : Bool} (h : b = false) : ¬(b = true) := by
  simp [h]

lemma decodeStep_ts (st : DecState) {u : ℕ} (hu : u < 128) :
    decodeStep st ("time_shift_" ++ Nat.repr u) =
      .ok { st with delta_time := st.delta_time + (u : ℤ) * (DIV : ℤ) } := by
  have hm : ("time_shift_" ++ Nat.repr u) ∉
      (["<pad>", "<start>", "<end>"] : List String) :=
    notin_ctl _ (by decide) (by decide)
  have hts : pyStartsWith ("time_shift_" ++ Nat.repr u) "time_shift_" = true :=
    startsWith_self_append _ _
  rw [decodeStep, if_neg hm, if_pos hts, pySplit_ts hu]
  have hlast : ((["time", "shift", Nat.repr u] : List String).getLastD "") =
      Nat.repr u := rfl
  rw [hlast, pyInt_repr u hu]

lemma decodeStep_sv (st : DecState) {b : ℕ} (hb : b < 32) :
    decodeStep st ("set_velocity_" ++ Nat.repr b) =
      .ok { st with current_velocity := (b : ℤ) * (BIN_STEP : ℤ) } := by
  have hm : ("set_velocity_" ++ Nat.repr b) ∉
      (["<pad>", "<start>", "<end>"] : List String) :=
    notin_ctl _ (by decide) (by decide)
  have hts : pyStartsWith ("set_velocity_" ++ Nat.repr b) "time_shift_" = false :=
    startsWith_ne 0 _ (by decide) (by decide) (by decide)
  have hsv : pyStartsWith ("set_velocity_" ++ Nat.repr b) "set_velocity_" = true :=
    startsWith_self_append _ _
  have hc : 0 ≤ (b : ℤ) * ((BIN_STEP : ℕ) : ℤ) ∧
      (b : ℤ) * ((BIN_STEP : ℕ) : ℤ) ≤ 127 := by
    rw [BIN_STEP_eq]
    push_cast
    omega
  have hbin : bin_to_velocity (b : ℤ) ((BIN_STEP : ℕ) : ℤ) =
      .ok ((b : ℤ) * ((BIN_STEP : ℕ) : ℤ)) := by
    rw [bin_to_velocity, if_neg (not_not_intro hc)]
  rw [decodeStep, if_neg hm, if_neg (bfalse hts), if_pos hsv,
    pySplit_sv (by omega)]
  have hlast : ((["set", "velocity", Nat.repr b] : List String).getLastD "") =
      Nat.repr b := rfl
  rw [hlast, pyInt_repr b (by omega)]
  simp [hbin]

lemma decodeStep_si (st : DecState) {p : ℕ} (hp : p < 128) :
    decodeStep st ("set_instrument_" ++ Nat.repr p) =
      .ok (setInstrumentUpd st (p : ℤ)) := by
  have hm : ("set_instrument_" ++ Nat.repr p) ∉
      (["<pad>", "<start>", "<end>"] : List String) :=
    notin_ctl _ (by decide) (by decide)
  have hts : pyStartsWith ("set_instrument_" ++ Nat.repr p) "time_shift_" = false :=
    startsWith_ne 0 _ (by decide) (by decide) (by decide)
  have hsv : pyStartsWith ("set_instrument_" ++ Nat.repr p) "set_velocity_" = false :=
    startsWith_ne 4 _ (by decide) (by decide) (by decide)
  have hsi : pyStartsWith ("set_instrument_" ++ Nat.repr p) "set_instrument_" = true :=
    startsWith_self_append _ _
  have hpc : pyProgramChange (p : ℤ) ((p : ℤ) % 16) 0 =
      .ok (TrackMsg.program_change (p : ℤ) ((p : ℤ) % 16) 0) := by
    rw [pyProgramChange, if_pos]
    have h16 := Int.emod_lt_of_pos (p : ℤ) (show (0 : ℤ) < 16 by norm_num)
    refine ⟨by positivity, by push_cast; omega,
      Int.emod_nonneg _ (by norm_num), by omega⟩
  rw [decodeStep, if_neg hm, if_neg (bfalse hts), if_neg (bfalse hsv),
    if_pos hsi, pySplit_si hp]
  have hlast : ((["set", "instrument", Nat.repr p] : List String).getLastD "") =
      Nat.repr p := rfl
  rw [hlast, pyInt_repr p hp, setInstrumentUpd]
  simp only []
  by_cases h : hasTrack st.tracks (p : ℤ) = true
  · simp [h]
  · simp only [Bool.not_eq_true] at h
    simp [h, hpc]

lemma decodeStep_non (st : DecState) {n i : ℕ} (hn : n < 128) (hi : i < 128)
    (hvel : 0 ≤ st.current_velocity ∧ st.current_velocity ≤ 127) :
    decodeStep st ("note_on_" ++ Nat.repr n ++ "_" ++ Nat.repr i) =
      .ok (noteUpd st true (n : ℤ) (i : ℤ)) := by
  have hm : ("note_on_" ++ (Nat.repr n ++ ("_" ++ Nat.repr i))) ∉
      (["<pad>", "<start>", "<end>"] : List String) :=
    notin_ctl _ (by decide) (by decide)
  have hts : pyStartsWith ("note_on_" ++ (Nat.repr n ++ ("_" ++ Nat.repr i)))
      "time_shift_" = false :=
    startsWith_ne 0 _ (by decide) (by decide) (by decide)
  have hsv : pyStartsWith ("note_on_" ++ (Nat.repr n ++ ("_" ++ Nat.repr i)))
      "set_velocity_" = false :=
    startsWith_ne 0 _ (by decide) (by decide) (by decide)
  have hsi : pyStartsWith ("note_on_" ++ (Nat.repr n ++ ("_" ++ Nat.repr i)))
      "set_instrument_" = false :=
    startsWith_ne 0 _ (by decide) (by decide) (by decide)
  have hnon : pyStartsWith ("note_on_" ++ (Nat.repr n ++ ("_" ++ Nat.repr i)))
      "note_on_" = true :=
    startsWith_self_append _ _
  have horr : (pyStartsWith ("note_on_" ++ (Nat.repr n ++ ("_" ++ Nat.repr i)))
      "note_on_" ||
      pyStartsWith ("note_on_" ++ (Nat.repr n ++ ("_" ++ Nat.repr i)))
        "note_off_") = true := by
    rw [hnon]
    simp
  have h16 := Int.emod_lt_of_pos (i : ℤ) (show (0 : ℤ) < 16 by norm_num)
  have hmsg : pyMessage true (n : ℤ) st.current_velocity
      ((i : ℤ) % 16) st.delta_time =
      .ok (TrackMsg.note true (n : ℤ) st.current_velocity ((i : ℤ) % 16)
        st.delta_time) := by
    rw [pyMessage, if_pos]
    refine ⟨by positivity, by push_cast; omega, hvel.1, hvel.2,
      Int.emod_nonneg _ (by norm_num), by omega⟩
  have hpc : pyProgramChange 0 ((i : ℤ) % 16) 0 =
      .ok (TrackMsg.program_change 0 ((i : ℤ) % 16) 0) := by
    rw [pyProgramChange, if_pos]
    refine ⟨le_refl _, by norm_num, Int.emod_nonneg _ (by norm_num), by omega⟩
  rw [note_str_assoc, decodeStep, if_neg hm, if_neg (bfalse hts),
    if_neg (bfalse hsv), if_neg (bfalse hsi), if_pos horr,
    ← note_str_assoc, pySplit_non hn hi]
  have hnt : (("note" ++ "_" ++ "on" : String) == "note_on") = true := by decide
  rw [noteUpd, ensureTrackUpd]
  simp only [pyGetAux, pyInt_repr n hn, pyInt_repr i hi, hnt, if_true,
    Bool.true_eq_false]
  by_cases h : hasTrack st.tracks (i : ℤ) = true
  · simp [h, hmsg]
  · simp only [Bool.not_eq_true] at h
    simp [h, hmsg, hpc]

lemma decodeStep_noff (st : DecState) {n i : ℕ} (hn : n < 128) (hi : i < 128) :
    decodeStep st ("note_off_" ++ Nat.repr n ++ "_" ++ Nat.repr i) =
      .ok (noteUpd st false (n : ℤ) (i : ℤ)) := by
  have hm : ("note_off_" ++ (Nat.repr n ++ ("_" ++ Nat.repr i))) ∉
      (["<pad>", "<start>", "<end>"] : List String) :=
    notin_ctl _ (by decide) (by decide)
  have hts : pyStartsWith ("note_off_" ++ (Nat.repr n ++ ("_" ++ Nat.repr i)))
      "time_shift_" = false :=
    startsWith_ne 0 _ (by decide) (by decide) (by decide)
  have hsv : pyStartsWith ("note_off_" ++ (Nat.repr n ++ ("_" ++ Nat.repr i)))
      "set_velocity_" = false :=
    startsWith_ne 0 _ (by decide) (by decide) (by decide)
  have hsi : pyStartsWith ("note_off_" ++ (Nat.repr n ++ ("_" ++ Nat.repr i)))
      "set_instrument_" = false :=
    startsWith_ne 0 _ (by decide) (by decide) (by decide)
  have hnon : pyStartsWith ("note_off_" ++ (Nat.repr n ++ ("_" ++ Nat.repr i)))
      "note_on_" = false :=
    startsWith_ne 6 _ (by decide) (by decide) (by decide)
  have hnoff : pyStartsWith ("note_off_" ++ (Nat.repr n ++ ("_" ++ Nat.repr i)))
      "note_off_" = true :=
    startsWith_self_append _ _
  have horr : (pyStartsWith ("note_off_" ++ (Nat.repr n ++ ("_" ++ Nat.repr i)))
      "note_on_" ||
      pyStartsWith ("note_off_" ++ (Nat.repr n ++ ("_" ++ Nat.repr i)))
        "note_off_") = true := by
    rw [hnon, hnoff]
    simp
  have h16 := Int.emod_lt_of_pos (i : ℤ) (show (0 : ℤ) < 16 by norm_num)
  have hmsg : pyMessage false (n : ℤ) 0 ((i : ℤ) % 16) st.delta_time =
      .ok (TrackMsg.note false (n : ℤ) 0 ((i : ℤ) % 16) st.delta_time) := by
    rw [pyMessage, if_pos]
    refine ⟨by positivity, by push_cast; omega, le_refl _, by norm_num,
      Int.emod_nonneg _ (by norm_num), by omega⟩
  have hpc : pyProgramChange 0 ((i : ℤ) % 16) 0 =
      .ok (TrackMsg.program_change 0 ((i : ℤ) % 16) 0) := by
    rw [pyProgramChange, if_pos]
    refine ⟨le_refl _, by norm_num, Int.emod_nonneg _ (by norm_num), by omega⟩
  rw [note_str_assoc, decodeStep, if_neg hm, if_neg (bfalse hts),
    if_neg (bfalse hsv), if_neg (bfalse hsi), if_pos horr,
    ← note_str_assoc, pySplit_noff hn hi]
  have hnt : (("note" ++ "_" ++ "off" : String) == "note_on") = false := by decide
  rw [noteUpd, ensureTrackUpd]
  simp only [pyGetAux, pyInt_repr n hn, pyInt_repr i hi, hnt, if_false,
    Bool.false_eq_true]
  by_cases h : hasTrack st.tracks (i : ℤ) = true
  · simp [h, hmsg]
  · simp only [Bool.not_eq_true] at h
    simp [h, hmsg, hpc]

/-! ### decodeList and track bookkeeping -/

lemma decodeList_append (st : DecState) (a b : List String) :
    decodeList st (a ++ b) =
      match decodeList st a with
      | .error e => .error e
      | .ok st' => decodeList st' b := by
  induction a generalizing st with
  | nil => rfl
  | cons x r ih =>
    rw [List.cons_append, decodeList, decodeList]
    cases decodeStep st x with
    | error e => rfl
    | ok st1 => exact ih st1

lemma decodeList_append_ok (a b : List String) {st stm : DecState}
    (h : decodeList st a = .ok stm) :
    decodeList st (a ++ b) = decodeList stm b := by
  rw [decodeList_append, h]

lemma lookup_append {α : Type} (l1 l2 : List (ℤ × α)) (j : ℤ) :
    (l1 ++ l2).lookup j =
      match l1.lookup j with
      | some v => some v
      | none => l2.lookup j := by
  induction l1 with
  | nil => rfl
  | cons p r ih =>
    rw [List.cons_append, List.lookup, List.lookup]
    by_cases h : (j == p.1) = true
    · simp [h]
    · simp only [Bool.not_eq_true] at h
      simp [h, ih]

lemma hasTrack_iff_lookup (tracks : List (ℤ × List TrackMsg)) (k : ℤ) :
    hasTrack tracks k = true ↔ (tracks.lookup k).isSome = true := by
  induction tracks with
  | nil => simp [hasTrack, List.lookup]
  | cons p r ih =>
    rw [hasTrack, List.any_cons, List.lookup]
    by_cases h : (p.1 == k) = true
    · have h2 : (k == p.1) = true := by
        rw [beq_iff_eq] at h ⊢
        omega
      simp [h, h2]
    · have h2 : (k == p.1) = false := by
        rw [beq_eq_false_iff_ne]
        rw [Bool.not_eq_true, beq_eq_false_iff_ne] at h
        exact fun hh => h hh.symm
      simp only [h, h2, Bool.false_or]
      exact ih

/-- The per-instrument note messages of the decoder state, with the fields
the round-trip claim compares (on/off flag, note, velocity). -/
def noteData : TrackMsg → Option (Bool × ℤ × ℤ)
  | .note isOn nt vel _ _ => some (isOn, nt, vel)
  | .program_change _ _ _ => none

def trackNotes (st : DecState) (j : ℤ) : List (Bool × ℤ × ℤ) :=
  ((st.tracks.lookup j).getD []).filterMap noteData

lemma trackNotes_setInstrumentUpd (st : DecState) (p : ℤ) (j : ℤ) :
    trackNotes (setInstrumentUpd st p) j = trackNotes st j := by
  rw [setInstrumentUpd]
  by_cases h : hasTrack st.tracks p = true
  · rw [if_pos h]
    rfl
  · rw [if_neg h]
    rw [trackNotes, trackNotes]
    simp only [lookup_append]
    cases hl : st.tracks.lookup j with
    | some v => rfl
    | none =>
      simp only []
      rw [List.lookup]
      by_cases hj : (j == p) = true
      · simp only [hj, cond_true, Option.getD_some, Option.getD_none]
        rw [beq_iff_eq] at hj
        rfl
      · simp only [hj, cond_false]
        rfl

lemma trackNotes_ensureTrackUpd (st : DecState) (k : ℤ) (j : ℤ) :
    trackNotes (ensureTrackUpd st k) j = trackNotes st j := by
  rw [ensureTrackUpd]
  by_cases h : hasTrack st.tracks k = true
  · rw [if_pos h]
  · rw [if_neg h]
    rw [trackNotes, trackNotes]
    simp only [lookup_append]
    cases hl : st.tracks.lookup j with
    | some v => rfl
    | none =>
      simp only []
      rw [List.lookup]
      by_cases hj : (j == k) = true
      · simp only [hj, cond_true, Option.getD_some, Option.getD_none]
        rfl
      · simp only [hj, cond_false]
        rfl

lemma lookup_cons_eq {α : Type} (a : ℤ) (b : α) (es : List (ℤ × α)) :
    List.lookup a ((a, b) :: es) = some b := by
  simp [List.lookup]

lemma lookup_cons_ne {α : Type} {a k : ℤ} (h : ¬a = k) (b : α)
    (es : List (ℤ × α)) : List.lookup a ((k, b) :: es) = List.lookup a es := by
  simp [List.lookup, beq_eq_false_iff_ne.mpr h]

lemma lookup_appendToTrack (tracks : List (ℤ × List TrackMsg)) (k : ℤ)
    (m : TrackMsg) (j : ℤ) :
    (appendToTrack tracks k m).lookup j =
      if j = k then (tracks.lookup k).map (fun l => l ++ [m])
      else tracks.lookup j := by
  induction tracks with
  | nil =>
    by_cases hj : j = k <;> simp [appendToTrack, List.lookup, hj]
  | cons p r ih =>
    obtain ⟨a, l⟩ := p
    simp only [appendToTrack, List.map_cons] at ih ⊢
    by_cases hp : a = k
    · subst hp
      rw [if_pos rfl]
      by_cases hj : j = a
      · subst hj
        rw [lookup_cons_eq, if_pos rfl, lookup_cons_eq]
        rfl
      · rw [lookup_cons_ne hj, ih, if_neg (by omega : ¬j = a), if_neg hj,
          lookup_cons_ne hj]
    · rw [if_neg hp]
      by_cases hj : j = a
      · subst hj
        rw [lookup_cons_eq, if_neg (by omega : ¬j = k), lookup_cons_eq]
      · rw [lookup_cons_ne hj, ih, lookup_cons_ne hj]
        by_cases hjk : j = k
        · subst hjk
          rw [if_pos rfl, if_pos rfl, lookup_cons_ne (by omega : ¬j = a)]
        · rw [if_neg hjk, if_neg hjk]

lemma trackNotes_noteUpd (st : DecState) (o : Bool) (n k : ℤ) (j : ℤ) :
    trackNotes (noteUpd st o n k) j =
      if j = k then
        trackNotes st j ++
          [(o, n, if o then st.current_velocity else 0)]
      else trackNotes st j := by
  rw [noteUpd]
  have hens := trackNotes_ensureTrackUpd st k
  set st1 := ensureTrackUpd st k with hst1
  have hsome : (st1.tracks.lookup k).isSome = true := by
    rw [← hasTrack_iff_lookup]
    rw [hst1, ensureTrackUpd]
    by_cases h : hasTrack st.tracks k = true
    · rwa [if_pos h]
    · rw [if_neg h, hasTrack]
      simp
  rw [trackNotes]
  simp only [lookup_appendToTrack]
  by_cases hj : j = k
  · subst hj
    rw [if_pos rfl, if_pos rfl, ← hens j]
    cases hl : st1.tracks.lookup j with
    | none => rw [hl] at hsome; simp at hsome
    | some v =>
      simp only [Option.map_some', Option.getD_some]
      rw [List.filterMap_append]
      rw [trackNotes, hl]
      rfl
  · rw [if_neg hj, if_neg hj, ← hens j]
    rfl

lemma trackNotes_delta (st : DecState) (d : ℤ) (j : ℤ) :
    trackNotes { st with delta_time := d } j = trackNotes st j := rfl

lemma trackNotes_vel (st : DecState) (v : ℤ) (j : ℤ) :
    trackNotes { st with current_velocity := v } j = trackNotes st j := rfl

/-! ### Encoder characterization under mido-valid inputs -/

lemma int_repr_natCast (k : ℕ) : Int.repr ((k : ℕ) : ℤ) = Nat.repr k := rfl

/-- Events representable by the vocabulary: 7-bit note, velocity and
program (mido guarantees these), and an instrument slot below
`max_instruments`. -/
def validEvent (e : MidiEvent) : Prop :=
  e.note < 128 ∧ e.velocity < 128 ∧ e.instrument < 16 ∧ e.program < 128

def validEvents (evs : List MidiEvent) : Prop := ∀ e ∈ evs, validEvent e

instance : DecidablePred validEvent := fun e => by
  rw [validEvent]
  infer_instance

instance (evs : List MidiEvent) : Decidable (validEvents evs) :=
  List.decidableBAll _ evs

lemma velocity_to_bin_eval {v : ℕ} (hv : v < 128) :
    velocity_to_bin (v : ℤ) ((BIN_STEP : ℕ) : ℤ) =
      .ok ((v / BIN_STEP : ℕ) : ℤ) := by
  rw [velocity_to_bin, if_neg (not_not_intro (by rw [BIN_STEP_eq]; decide)),
    if_neg (not_not_intro ⟨by positivity, by push_cast; omega⟩)]
  rw [BIN_STEP_eq]
  rw [show ((4 : ℕ) : ℤ) = ((4 : ℕ) : ℤ) from rfl]
  rw [← Int.ofNat_fdiv v 4]

lemma encodeEvent_si {e : MidiEvent} (ht : e.type = .set_instrument)
    (hv : validEvent e) :
    encodeEvent e = .ok (["set_instrument_" ++ Nat.repr e.program],
      [((4254 + e.program : ℕ) : ℤ)]) := by
  rw [encodeEvent, ht]
  simp only [vocabIndex_instrument hv.2.2.2]

lemma encodeEvent_noteOn {e : MidiEvent} (ht : e.type = .note_on)
    (hv : validEvent e) :
    encodeEvent e = .ok
      (["set_velocity_" ++ Nat.repr (e.velocity / BIN_STEP),
        "note_on_" ++ Nat.repr e.note ++ "_" ++ Nat.repr e.instrument],
       [((4222 + e.velocity / BIN_STEP : ℕ) : ℤ),
        ((1 + (128 * e.instrument + e.note) : ℕ) : ℤ)]) := by
  rw [encodeEvent, ht]
  have hb : e.velocity / BIN_STEP < 32 := by
    have := hv.2.1
    rw [BIN_STEP_eq]
    omega
  simp only [velocity_to_bin_eval hv.2.1, int_repr_natCast,
    vocabIndex_velocity hb, vocabIndex_noteOn hv.1 hv.2.2.1]

lemma encodeEvent_noteOff {e : MidiEvent} (ht : e.type = .note_off)
    (hv : validEvent e) :
    encodeEvent e = .ok
      (["note_off_" ++ Nat.repr e.note ++ "_" ++ Nat.repr e.instrument],
       [((2049 + (128 * e.instrument + e.note) : ℕ) : ℤ)]) := by
  rw [encodeEvent, ht]
  simp only [vocabIndex_noteOff hv.1 hv.2.2.1]

/-! ### indices_to_events on encoder output -/

lemma pyGet_vocab_nat {k : ℕ} {s : String} (h : vocab[k]? = some s) :
    pyGet vocab ((k : ℕ) : ℤ) = .ok s := by
  apply pyGet_of_getElem (by positivity)
  rwa [Int.toNat_natCast]

lemma indices_append {a b : List ℤ} {ea eb : List String}
    (h1 : indices_to_events a = .ok ea) (h2 : indices_to_events b = .ok eb) :
    indices_to_events (a ++ b) = .ok (ea ++ eb) := by
  induction a generalizing ea with
  | nil =>
    simp only [indices_to_events] at h1
    cases h1
    simpa using h2
  | cons i r ih =>
    simp only [indices_to_events] at h1
    rw [List.cons_append]
    simp only [indices_to_events]
    cases hg : pyGet vocab i with
    | error e =>
      rw [hg] at h1
      cases h1
    | ok s =>
      rw [hg] at h1
      cases hr : indices_to_events r with
      | error e =>
        rw [hr] at h1
        cases h1
      | ok t =>
        rw [hr] at h1
        cases h1
        rw [ih hr]
        rfl

lemma indices_shifts {l : List ℤ} (h : ∀ u ∈ l, 1 ≤ u ∧ u ≤ 125) :
    indices_to_events (l.map (fun u => base_idx + u)) =
      .ok (l.map (fun u => "time_shift_" ++ Nat.repr (u.toNat - 1))) := by
  induction l with
  | nil => rfl
  | cons u r ih =>
    have hu := h u (List.mem_cons_self u r)
    have hr : ∀ x ∈ r, 1 ≤ x ∧ x ≤ 125 := fun x hx =>
      h x (List.mem_cons_of_mem u hx)
    rw [List.map_cons, List.map_cons]
    simp only [indices_to_events, pyGet_vocab_shift hu.1 hu.2, ih hr]

lemma indices_single {k : ℕ} {s : String} (h : vocab[k]? = some s) :
    indices_to_events [((k : ℕ) : ℤ)] = .ok [s] := by
  simp only [indices_to_events, pyGet_vocab_nat h]

/-! ### Chunk-level decoding lemmas -/

lemma decodeList_single {st st' : DecState} {s : String}
    (h : decodeStep st s = .ok st') : decodeList st [s] = .ok st' := by
  show (match decodeStep st s with
    | .error err => (.error err : Except String DecState)
    | .ok st2 => decodeList st2 []) = .ok st'
  rw [h]
  rfl

lemma decodeList_shifts (st : DecState) {l : List ℤ}
    (h : ∀ u ∈ l, 1 ≤ u ∧ u ≤ 125) :
    decodeList st (l.map (fun u => "time_shift_" ++ Nat.repr (u.toNat - 1))) =
      .ok { st with delta_time :=
        st.delta_time + (l.map (fun u => (u - 1) * (DIV : ℤ))).sum } := by
  induction l generalizing st with
  | nil =>
    rw [List.map_nil]
    show (Except.ok st : Except String DecState) = _
    simp
  | cons u r ih =>
    have hu := h u (List.mem_cons_self u r)
    have hr : ∀ x ∈ r, 1 ≤ x ∧ x ≤ 125 := fun x hx =>
      h x (List.mem_cons_of_mem u hx)
    have h1 : decodeList st ["time_shift_" ++ Nat.repr (u.toNat - 1)] =
        .ok { st with delta_time :=
          st.delta_time + ((u.toNat - 1 : ℕ) : ℤ) * (DIV : ℤ) } :=
      decodeList_single (decodeStep_ts st (by omega))
    rw [List.map_cons,
      show ("time_shift_" ++ Nat.repr (u.toNat - 1)) ::
          (r.map (fun u => "time_shift_" ++ Nat.repr (u.toNat - 1))) =
        ["time_shift_" ++ Nat.repr (u.toNat - 1)] ++
          (r.map (fun u => "time_shift_" ++ Nat.repr (u.toNat - 1))) from rfl,
      decodeList_append_ok _ _ h1, ih _ hr]
    have hc : ((u.toNat - 1 : ℕ) : ℤ) = u - 1 := by omega
    rw [List.map_cons, List.sum_cons, hc]
    have : st.delta_time + (u - 1) * (DIV : ℤ) +
        (r.map (fun x => (x - 1) * (DIV : ℤ))).sum =
        st.delta_time + ((u - 1) * (DIV : ℤ) +
          (r.map (fun x => (x - 1) * (DIV : ℤ))).sum) := by ring
    rw [this]

lemma decodeList_chunk_non (st : DecState) {n i v : ℕ} (hn : n < 128)
    (hi : i < 128) (hv : v < 128) :
    decodeList st
      ["set_velocity_" ++ Nat.repr (v / BIN_STEP),
       "note_on_" ++ Nat.repr n ++ "_" ++ Nat.repr i] =
      .ok (noteUpd
        { st with current_velocity :=
            ((v / BIN_STEP : ℕ) : ℤ) * ((BIN_STEP : ℕ) : ℤ) }
        true (n : ℤ) (i : ℤ)) := by
  have hb : v / BIN_STEP < 32 := by
    rw [BIN_STEP_eq]
    omega
  rw [decodeList, decodeStep_sv st hb]
  exact decodeList_single (decodeStep_non _ hn hi
    ⟨by positivity, by rw [BIN_STEP_eq]; push_cast; omega⟩)

/-! ### Stable sort facts -/

lemma mem_sortInsert (a e : MidiEvent) (l : List MidiEvent) :
    a ∈ sortInsert e l ↔ a = e ∨ a ∈ l := by
  induction l with
  | nil => simp [sortInsert]
  | cons b t ih =>
    rw [sortInsert]
    by_cases h : e.time ≤ b.time
    · rw [if_pos h]
      simp
    · rw [if_neg h]
      simp only [List.mem_cons, ih]
      tauto

lemma mem_sortByTime (a : MidiEvent) (l : List MidiEvent) :
    a ∈ sortByTime l ↔ a ∈ l := by
  induction l with
  | nil => simp [sortByTime]
  | cons e t ih =>
    rw [sortByTime, mem_sortInsert]
    simp [ih]

lemma validEvents_sortByTime {evs : List MidiEvent} (h : validEvents evs) :
    validEvents (sortByTime evs) := fun e he =>
  h e ((mem_sortByTime e evs).mp he)

/-! ### The round-trip induction -/

lemma ensureTrackUpd_velocity (st : DecState) (k : ℤ) :
    (ensureTrackUpd st k).current_velocity = st.current_velocity := by
  rw [ensureTrackUpd]
  split <;> rfl

lemma noteUpd_velocity (st : DecState) (o : Bool) (n k : ℤ) :
    (noteUpd st o n k).current_velocity = st.current_velocity :=
  ensureTrackUpd_velocity st k

lemma setInstrumentUpd_velocity (st : DecState) (p : ℤ) :
    (setInstrumentUpd st p).current_velocity = st.current_velocity := by
  rw [setInstrumentUpd]
  split <;> rfl

/-- Whether an event is a note event. -/
def noteFlag (e : MidiEvent) : Bool :=
  e.type == EvType.note_on || e.type == EvType.note_off

/-- The (on/off, note, decoded velocity) triple the decoder reconstructs
for a note event: the note and flag verbatim, and the velocity collapsed
to its bin representative `(velocity / BIN_STEP) * BIN_STEP` for note-on,
0 for note-off. -/
def evNoteData (e : MidiEvent) : Bool × ℤ × ℤ :=
  (e.type == EvType.note_on, (e.note : ℤ),
    if e.type == EvType.note_on then
      ((e.velocity / BIN_STEP : ℕ) : ℤ) * ((BIN_STEP : ℕ) : ℤ)
    else 0)

lemma roundtrip_body :
    ∀ (evs : List MidiEvent) (last : ℕ) (st : DecState),
      validEvents evs → 0 ≤ st.current_velocity → st.current_velocity ≤ 127 →
      ∃ es is, encodeBody last evs = .ok (es, is) ∧
        indices_to_events is = .ok es ∧
        ∃ st', decodeList st es = .ok st' ∧
          0 ≤ st'.current_velocity ∧ st'.current_velocity ≤ 127 ∧
          ∀ j : ℤ, trackNotes st' j = trackNotes st j ++
            ((evs.filter
              (fun e => noteFlag e && ((e.instrument : ℤ) == j))).map evNoteData)
  | [], last, st, hval, hv0, hv1 => by
    refine ⟨[], [], rfl, rfl, st, rfl, hv0, hv1, ?_⟩
    intro j
    simp
  | e :: rest, last, st, hval, hv0, hv1 => by
    have hve : validEvent e := hval e (List.mem_cons_self e rest)
    have hvrest : validEvents rest := fun x hx =>
      hval x (List.mem_cons_of_mem e hx)
    -- the time chunk
    obtain ⟨tsE, tsI, last', hstep, htsIdx, htsDec⟩ :
        ∃ tsE tsI last', timeStep last e.time = .ok (tsE, tsI, last') ∧
          indices_to_events tsI = .ok tsE ∧
          ∀ s : DecState, ∃ d, decodeList s tsE =
            .ok { s with delta_time := d } := by
      rw [timeStep]
      by_cases hlt : last < e.time
      · rw [if_pos hlt, time_to_events_eq]
        refine ⟨_, _, e.time, rfl,
          indices_shifts (fun u hu => timeUnits_mem_bounds hu), ?_⟩
        intro s
        exact ⟨_, decodeList_shifts s (fun u hu => timeUnits_mem_bounds hu)⟩
      · rw [if_neg hlt]
        refine ⟨[], [], last, rfl, rfl, ?_⟩
        intro s
        exact ⟨s.delta_time, rfl⟩
    obtain ⟨d1, hdec1⟩ := htsDec st
    set st1 : DecState := { st with delta_time := d1 } with hst1
    have hv0' : 0 ≤ st1.current_velocity := hv0
    have hv1' : st1.current_velocity ≤ 127 := hv1
    -- the per-event chunk, by cases on the event type
    obtain ⟨chE, chI, st2, hch, hchIdx, hchDec, hchVel0, hchVel1, hchNotes⟩ :
        ∃ chE chI st2, encodeEvent e = .ok (chE, chI) ∧
          indices_to_events chI = .ok chE ∧
          decodeList st1 chE = .ok st2 ∧
          0 ≤ st2.current_velocity ∧ st2.current_velocity ≤ 127 ∧
          ∀ j : ℤ, trackNotes st2 j = trackNotes st1 j ++
            (if noteFlag e && ((e.instrument : ℤ) == j) then [evNoteData e]
              else []) := by
      rcases ht : e.type with _ | _ | _
      · -- note_on
        refine ⟨_, _,
          noteUpd { st1 with current_velocity :=
              ((e.velocity / BIN_STEP : ℕ) : ℤ) * ((BIN_STEP : ℕ) : ℤ) }
            true (e.note : ℤ) (e.instrument : ℤ),
          encodeEvent_noteOn ht hve, ?_, ?_, ?_, ?_, ?_⟩
        · rw [show ((((4222 + e.velocity / BIN_STEP : ℕ) : ℤ) ::
              [((1 + (128 * e.instrument + e.note) : ℕ) : ℤ)]) =
              [((4222 + e.velocity / BIN_STEP : ℕ) : ℤ)] ++
              [((1 + (128 * e.instrument + e.note) : ℕ) : ℤ)]) from rfl]
          refine indices_append
            (indices_single (vocab_getElem_velocity (by
              have := hve.2.1
              rw [BIN_STEP_eq]
              omega)))
            (indices_single (vocab_getElem_noteOn hve.1 hve.2.2.1))
        · exact decodeList_chunk_non st1 hve.1
            (by have := hve.2.2.1; omega) hve.2.1
        · rw [noteUpd_velocity]
          positivity
        · rw [noteUpd_velocity]
          have h127 := hve.2.1
          rw [BIN_STEP_eq]
          show ((e.velocity / 4 : ℕ) : ℤ) * ((4 : ℕ) : ℤ) ≤ 127
          omega
        · intro j
          rw [trackNotes_noteUpd]
          rw [trackNotes_vel]
          by_cases hj : j = (e.instrument : ℤ)
          · subst hj
            rw [if_pos rfl]
            have hb : ((e.instrument : ℤ) == (e.instrument : ℤ)) = true :=
              beq_self_eq_true _
            rw [trackNotes_delta]
            simp [noteFlag, evNoteData, ht, hb]
          · rw [if_neg hj]
            have hb : ((e.instrument : ℤ) == j) = false :=
              beq_eq_false_iff_ne.mpr (fun hh => hj hh.symm)
            rw [trackNotes_delta]
            simp [noteFlag, evNoteData, ht, hb]
      · -- note_off
        refine ⟨_, _, noteUpd st1 false (e.note : ℤ) (e.instrument : ℤ),
          encodeEvent_noteOff ht hve, ?_, ?_, ?_, ?_, ?_⟩
        · exact indices_single (vocab_getElem_noteOff hve.1 hve.2.2.1)
        · exact decodeList_single (decodeStep_noff st1 hve.1
            (by have := hve.2.2.1; omega))
        · rw [noteUpd_velocity]
          exact hv0'
        · rw [noteUpd_velocity]
          exact hv1'
        · intro j
          rw [trackNotes_noteUpd]
          by_cases hj : j = (e.instrument : ℤ)
          · subst hj
            rw [if_pos rfl]
            have hb : ((e.instrument : ℤ) == (e.instrument : ℤ)) = true :=
              beq_self_eq_true _
            rw [trackNotes_delta]
            simp [noteFlag, evNoteData, ht, hb]
          · rw [if_neg hj]
            have hb : ((e.instrument : ℤ) == j) = false :=
              beq_eq_false_iff_ne.mpr (fun hh => hj hh.symm)
            rw [trackNotes_delta]
            simp [noteFlag, evNoteData, ht, hb]
      · -- set_instrument
        refine ⟨_, _, setInstrumentUpd st1 (e.program : ℤ),
          encodeEvent_si ht hve, ?_, ?_, ?_, ?_, ?_⟩
        · exact indices_single (vocab_getElem_instrument hve.2.2.2)
        · exact decodeList_single (decodeStep_si st1 hve.2.2.2)
        · rw [setInstrumentUpd_velocity]
          exact hv0'
        · rw [setInstrumentUpd_velocity]
          exact hv1'
        · intro j
          rw [trackNotes_setInstrumentUpd]
          simp [noteFlag, ht]
    -- note_off and set_instrument leave the velocity untouched
    obtain ⟨resE, resI, hres, hresIdx, st3, hresDec, hres0, hres1, hresNotes⟩ :=
      roundtrip_body rest last' st2 hvrest hchVel0 hchVel1
    refine ⟨tsE ++ chE ++ resE, tsI ++ chI ++ resI, ?_, ?_, st3, ?_, hres0,
      hres1, ?_⟩
    · rw [encodeBody]
      simp only [hstep, hch, hres]
    · exact indices_append (indices_append htsIdx hchIdx) hresIdx
    · have hAB : decodeList st (tsE ++ chE) = .ok st2 := by
        rw [decodeList_append_ok _ _ hdec1, hchDec]
      rw [decodeList_append_ok _ _ hAB, hresDec]
    · intro j
      rw [hresNotes j, hchNotes j, trackNotes_delta]
      rw [List.filter_cons]
      by_cases hc : (noteFlag e && ((e.instrument : ℤ) == j)) = true
      · rw [if_pos hc, if_pos hc, List.map_cons, List.append_assoc]
        rfl
      · rw [if_neg hc]
        simp only [Bool.not_eq_true] at hc
        rw [hc]
        simp

/-! ### Claim support: step composition, index-range behaviour, totality -/

lemma decodeList_cons_ok {st st1 : DecState} {s : String}
    (h : decodeStep st s = .ok st1) (rest : List String) :
    decodeList st (s :: rest) = decodeList st1 rest := by
  show (match decodeStep st s with
    | .error err => (.error err : Except String DecState)
    | .ok st2 => decodeList st2 rest) = decodeList st1 rest
  rw [h]

lemma sum_map_pred_mul (l : List ℤ) :
    (l.map (fun u => (u - 1) * (DIV : ℤ))).sum =
      (l.map (fun u => u * (DIV : ℤ))).sum - (l.length : ℤ) * (DIV : ℤ) := by
  induction l with
  | nil => simp
  | cons u r ih =>
    simp only [List.map_cons, List.sum_cons, List.length_cons, ih]
    push_cast
    ring

/-- Every genuine vocabulary token decodes successfully, and the run keeps
`current_velocity` inside the mido-legal range `[0, 127]`. -/
lemma decodeStep_vocab_ok {st : DecState} {s : String} (hs : s ∈ vocab)
    (hv0 : 0 ≤ st.current_velocity) (hv1 : st.current_velocity ≤ 127) :
    ∃ st', decodeStep st s = .ok st' ∧
      0 ≤ st'.current_velocity ∧ st'.current_velocity ≤ 127 := by
  rw [mem_vocab_iff] at hs
  rcases hs with rfl | hs | hs | hs | hs | hs | rfl | rfl
  · exact ⟨st, decodeStep_pad st, hv0, hv1⟩
  · rw [mem_note_on_vocab] at hs
    obtain ⟨i, hi, n, hn, rfl⟩ := hs
    refine ⟨_, decodeStep_non st hn (by omega) ⟨hv0, hv1⟩, ?_, ?_⟩ <;>
      rw [noteUpd_velocity]
    · exact hv0
    · exact hv1
  · rw [mem_note_off_vocab] at hs
    obtain ⟨i, hi, n, hn, rfl⟩ := hs
    refine ⟨_, decodeStep_noff st hn (by omega), ?_, ?_⟩ <;>
      rw [noteUpd_velocity]
    · exact hv0
    · exact hv1
  · rw [mem_time_shift_vocab] at hs
    obtain ⟨u, hu, rfl⟩ := hs
    exact ⟨_, decodeStep_ts st (by omega), hv0, hv1⟩
  · rw [mem_velocity_vocab] at hs
    obtain ⟨b, hb, rfl⟩ := hs
    refine ⟨_, decodeStep_sv st hb, ?_, ?_⟩ <;>
      simp only
    · positivity
    · have : ((BIN_STEP : ℕ) : ℤ) = 4 := by rw [BIN_STEP_eq]; rfl
      rw [this]
      omega
  · rw [mem_instrument_vocab] at hs
    obtain ⟨p, hp, rfl⟩ := hs
    refine ⟨_, decodeStep_si st hp, ?_, ?_⟩ <;>
      rw [setInstrumentUpd_velocity]
    · exact hv0
    · exact hv1
  · exact ⟨st, decodeStep_start st, hv0, hv1⟩
  · exact ⟨st, decodeStep_end st, hv0, hv1⟩

lemma decodeList_vocab_ok :
    ∀ (es : List String) (st : DecState), (∀ s ∈ es, s ∈ vocab) →
      0 ≤ st.current_velocity → st.current_velocity ≤ 127 →
      ∃ st', decodeList st es = .ok st'
  | [], st, _, _, _ => ⟨st, rfl⟩
  | s :: rest, st, h, hv0, hv1 => by
    obtain ⟨st1, hstep, h0, h1⟩ :=
      decodeStep_vocab_ok (h s (List.mem_cons_self s rest)) hv0 hv1
    obtain ⟨st', hrest⟩ := decodeList_vocab_ok rest st1
      (fun x hx => h x (List.mem_cons_of_mem s hx)) h0 h1
    exact ⟨st', by rw [decodeList_cons_ok hstep, hrest]⟩

/-- Python list indexing accepts any index in `[-len, len)`; on the vocab
this gives a genuine token for every such index. -/
lemma indices_ok_of_inrange :
    ∀ l : List ℤ, (∀ x ∈ l, -(vocab_size : ℤ) ≤ x ∧ x < (vocab_size : ℤ)) →
      ∃ es, indices_to_events l = .ok es ∧ ∀ s ∈ es, s ∈ vocab
  | [], _ => ⟨[], rfl, by simp⟩
  | x :: r, h => by
    obtain ⟨hx1, hx2⟩ := h x (List.mem_cons_self x r)
    rw [vocab_size_eq] at hx1 hx2
    obtain ⟨er, her, hmem⟩ := indices_ok_of_inrange r
      (fun y hy => h y (List.mem_cons_of_mem x hy))
    by_cases hx0 : 0 ≤ x
    · have hk : x.toNat < vocab.length := by rw [vocab_length]; omega
      have hget : pyGet vocab x = .ok (vocab.get ⟨x.toNat, hk⟩) :=
        pyGet_of_getElem hx0 (by rw [List.getElem?_eq_getElem hk]; rfl)
      refine ⟨vocab.get ⟨x.toNat, hk⟩ :: er, ?_, ?_⟩
      · simp only [indices_to_events, hget, her]
      · intro s hsm
        rcases List.mem_cons.mp hsm with rfl | hsm
        · exact List.getElem_mem hk
        · exact hmem s hsm
    · have hik : (0 : ℤ) ≤ x + (vocab.length : ℤ) := by rw [vocab_length]; omega
      have hk : (x + (vocab.length : ℤ)).toNat < vocab.length := by
        rw [vocab_length]
        omega
      have hget : pyGet vocab x =
          .ok (vocab.get ⟨(x + (vocab.length : ℤ)).toNat, hk⟩) :=
        pyGet_neg_of_getElem (by omega) hik
          (by rw [List.getElem?_eq_getElem hk]; rfl)
      refine ⟨vocab.get ⟨(x + (vocab.length : ℤ)).toNat, hk⟩ :: er, ?_, ?_⟩
      · simp only [indices_to_events, hget, her]
      · intro s hsm
        rcases List.mem_cons.mp hsm with rfl | hsm
        · exact List.getElem_mem hk
        · exact hmem s hsm

lemma indices_err_of_outrange :
    ∀ (l : List ℤ) (x : ℤ), x ∈ l →
      (x < -(vocab_size : ℤ) ∨ (vocab_size : ℤ) ≤ x) →
      ∃ err, indices_to_events l = .error err
  | y :: r, x, hmem, hout => by
    rcases List.mem_cons.mp hmem with rfl | hmem
    · have herr : pyGet vocab x = .error "IndexError" := by
        rw [vocab_size_eq] at hout
        rcases hout with h | h
        · exact pyGet_err_low (by rw [vocab_length]; omega)
        · exact pyGet_err_high (by omega) (by rw [vocab_length]; omega)
      exact ⟨"IndexError", by simp only [indices_to_events, herr]⟩
    · rcases hy : pyGet vocab y with err | s
      · exact ⟨err, by simp only [indices_to_events, hy]⟩
      · obtain ⟨err, herr⟩ := indices_err_of_outrange r x hmem hout
        exact ⟨err, by simp only [indices_to_events, hy, herr]⟩

/-! ### Constructible symbols (the fixed vocabulary layout) -/

/-- The symbols constructible under the fixed layout of `vocab`
(multitrack_vocabulary.py lines 24-31). -/
def constructibleSymbol (s : String) : Prop :=
  s = "<pad>" ∨
    (∃ i, i < 16 ∧ ∃ n, n < 128 ∧
      s = "note_on_" ++ Nat.repr n ++ "_" ++ Nat.repr i) ∨
    (∃ i, i < 16 ∧ ∃ n, n < 128 ∧
      s = "note_off_" ++ Nat.repr n ++ "_" ++ Nat.repr i) ∨
    (∃ u, u < 125 ∧ s = "time_shift_" ++ Nat.repr u) ∨
    (∃ b, b < 32 ∧ s = "set_velocity_" ++ Nat.repr b) ∨
    (∃ p, p < 128 ∧ s = "set_instrument_" ++ Nat.repr p) ∨
    s = "<start>" ∨ s = "<end>"

lemma constructibleSymbol_iff_mem {s : String} :
    constructibleSymbol s ↔ s ∈ vocab := by
  rw [mem_vocab_iff, constructibleSymbol, mem_note_on_vocab,
    mem_note_off_vocab, mem_time_shift_vocab, mem_velocity_vocab,
    mem_instrument_vocab]

/-! ### Spec-side first pass for comparison (per-track time reset) -/

/-- The first pass as the specification describes it: each track's running
absolute time starts from 0, independently of other tracks.  This is a
spec-side definition, written from the spec text, to be compared with
`procAll`. -/
def procAllSpec (tracks : List (List RawMsg)) : PState :=
  tracks.foldl (fun s track =>
    track.foldl procMsg { s with current_time := 0 }) pInit

/-! ### Claim theorems -/

/-- C4: the vocabulary mapping is a bijection.  `vocab` has no duplicate
token strings; for every index `i` holding a symbol `s`, `vocab.index(s)`
(here `vocabIndex`, the embedding of `list.index`) returns `i`; and every
symbol constructible under the fixed layout is found again unchanged at
its index. -/
theorem C4_vocab_bijection :
    vocab.Nodup ∧
    (∀ (i : ℕ) (s : String), vocab[i]? = some s → vocabIndex s = .ok i) ∧
    (∀ s : String, constructibleSymbol s →
      vocab[vocab.indexOf s]? = some s) := by
  refine ⟨vocab_nodup, ?_, ?_⟩
  · intro i s h
    rw [vocabIndex_of_mem (List.getElem?_mem h), vocab_indexOf_of_getElem h]
  · intro s hs
    have hmem : s ∈ vocab := constructibleSymbol_iff_mem.mp hs
    have hlt : vocab.indexOf s < vocab.length := List.indexOf_lt_length.mpr hmem
    rw [List.getElem?_eq_getElem hlt, List.getElem_indexOf hlt]

/-- C4 witness: at index 61 the vocabulary holds `note_on_60_0`, whose
lookup returns 61; and the constructible symbol `time_shift_0` is found
unchanged at its own index. -/
theorem C4_vocab_bijection_witness :
    vocabIndex ("note_on_" ++ Nat.repr 60 ++ "_" ++ Nat.repr 0) = .ok 61 ∧
    vocab[vocab.indexOf ("time_shift_" ++ Nat.repr 0)]? =
      some ("time_shift_" ++ Nat.repr 0) := by
  constructor
  · exact C4_vocab_bijection.2.1 61 _
      (show vocab[(1 + (128 * 0 + 60) : ℕ)]? = some _ from
        vocab_getElem_noteOn (by norm_num) (by norm_num))
  · exact C4_vocab_bijection.2.2 _
      (Or.inr (Or.inr (Or.inr (Or.inl ⟨0, by norm_num, rfl⟩))))

/-- C6 (amended): `list_parser` on an index list fails exactly on Python
out-of-range indices.  Every element of `[-vocab_size, vocab_size)` is
accepted (negative indices wrap, Python-style), and the call succeeds; an
element below `-vocab_size` or at/above `vocab_size` makes the call fail.
The original claim, that every index outside `[0, vocab_size)` fails, is
refuted by the counterexample below. -/
theorem C6_index_range :
    (∀ l : List ℤ, (∀ x ∈ l, -(vocab_size : ℤ) ≤ x ∧ x < (vocab_size : ℤ)) →
      ∃ st, listParserIdx l = .ok st) ∧
    (∀ (l : List ℤ) (x : ℤ), x ∈ l →
      x < -(vocab_size : ℤ) ∨ (vocab_size : ℤ) ≤ x →
      ∃ err, listParserIdx l = .error err) := by
  constructor
  · intro l hl
    obtain ⟨es, hes, hmem⟩ := indices_ok_of_inrange l hl
    obtain ⟨st, hst⟩ := decodeList_vocab_ok es decInit hmem
      (by norm_num [decInit]) (by norm_num [decInit])
    exact ⟨st, by rw [listParserIdx]; simp only [hes, hst]⟩
  · intro l x hmem hout
    obtain ⟨err, herr⟩ := indices_err_of_outrange l x hmem hout
    exact ⟨err, by rw [listParserIdx]; simp only [herr]⟩

/-- C6 witness: every index of `[0, 61, -1]` lies in
`[-vocab_size, vocab_size)`, so decoding succeeds; the single out-of-range
index 4384 makes decoding fail. -/
theorem C6_index_range_witness :
    (∃ st, listParserIdx [0, 61, -1] = .ok st) ∧
    (∃ err, listParserIdx [(4384 : ℤ)] = .error err) := by
  constructor
  · refine C6_index_range.1 [0, 61, -1] ?_
    intro x hx
    rw [vocab_size_eq]
    fin_cases hx <;> norm_num
  · refine C6_index_range.2 [(4384 : ℤ)] 4384 (by norm_num) ?_
    rw [vocab_size_eq]
    norm_num

/-- C6 counterexample to the original claim: the negative index `-1` is
not in `[0, vocab_size)`, yet `list_parser` silently accepts it (it wraps
to the last token `<end>`) and succeeds. -/
theorem C6_counterexample :
    ((-1 : ℤ) < 0) ∧ listParserIdx [(-1 : ℤ)] = .ok decInit := by
  refine ⟨by norm_num, ?_⟩
  have hk : ((-1 : ℤ) + (vocab.length : ℤ)).toNat = 4383 := by
    rw [vocab_length]
    rfl
  have hget : pyGet vocab (-1) = .ok "<end>" :=
    pyGet_neg_of_getElem (by norm_num) (by rw [vocab_length]; norm_num)
      (by rw [hk]; exact vocab_getElem_end)
  have hidx : indices_to_events [(-1 : ℤ)] = .ok ["<end>"] := by
    simp only [indices_to_events, hget]
  rw [listParserIdx]
  simp only [hidx]
  exact decodeList_single (decodeStep_end decInit)

/-- C7 (amended): for every non-negative gap `d`, `time_cutter d` succeeds,
every returned unit count lies in `[1, 125]`, and the units multiplied by
`DIV` sum to `d` within a total rounding error of at most `DIV / 2`.  The
original per-unit error bound `(DIV/2) * (number of units)` is refuted by
the counterexample below (a gap smaller than half a unit produces no units
at all but a nonzero error). -/
theorem C7_time_cutter_error :
    ∀ d : ℕ, ∃ l, time_cutter d LTH DIV = .ok l ∧
      (∀ u ∈ l, 1 ≤ u ∧ u ≤ 125) ∧
      (((l.map (fun u => u * (DIV : ℤ))).sum - (d : ℤ)).natAbs ≤ DIV / 2) := by
  intro d
  exact ⟨timeUnits d, time_cutter_eq d,
    fun u hu => timeUnits_mem_bounds hu, timeUnits_sum_bound d⟩

/-- C7 witness: at `d = 500` the cutter returns one unit count 63, and
`63 * 8` misses 500 by exactly `4 = DIV / 2`. -/
theorem C7_time_cutter_error_witness :
    ∃ l, time_cutter 500 LTH DIV = .ok l ∧
      (∀ u ∈ l, 1 ≤ u ∧ u ≤ 125) ∧
      (((l.map (fun u => u * (DIV : ℤ))).sum - (500 : ℤ)).natAbs ≤ DIV / 2) :=
  C7_time_cutter_error 500

/-- C7 counterexample to the original claim: at `d = 3` the cutter returns
no units, so the per-unit bound `(DIV/2) * 0 = 0` would force the units to
sum to 3 exactly, yet they sum to 0. -/
theorem C7_counterexample :
    ∃ l, time_cutter 3 LTH DIV = .ok l ∧
      ¬(((l.map (fun u => u * (DIV : ℤ))).sum - (3 : ℤ)).natAbs ≤
        (DIV / 2) * l.length) := by
  refine ⟨timeUnits 3, time_cutter_eq 3, ?_⟩
  have h3 : timeUnits 3 = [] := by decide
  rw [h3]
  decide

/-- C8: for every velocity `v` in `[0, 127]` and the default step
`BIN_STEP = 128 / velocity_events = 4`, both conversions succeed and the
recovered velocity `bin_to_velocity(velocity_to_bin(v))` is within
`BIN_STEP` of `v` (it is the bin floor, so `v - w < BIN_STEP`). -/
theorem C8_velocity_roundtrip :
    ∀ v : ℤ, 0 ≤ v → v ≤ 127 →
      ∃ b w, velocity_to_bin v (BIN_STEP : ℤ) = .ok b ∧
        bin_to_velocity b (BIN_STEP : ℤ) = .ok w ∧
        0 ≤ w ∧ w ≤ v ∧ (v - w).natAbs < BIN_STEP := by
  intro v hv0 hv1
  have hstep : ((BIN_STEP : ℕ) : ℤ) = 4 := by rw [BIN_STEP_eq]; rfl
  have hveq : v = ((v.toNat : ℕ) : ℤ) := by omega
  have hfd : v.fdiv ((BIN_STEP : ℕ) : ℤ) = ((v.toNat / 4 : ℕ) : ℤ) := by
    rw [hstep, hveq]
    exact (Int.ofNat_fdiv v.toNat 4).symm
  refine ⟨v.fdiv ((BIN_STEP : ℕ) : ℤ), ((v.toNat / 4 : ℕ) : ℤ) * 4, ?_, ?_, ?_, ?_, ?_⟩
  · rw [velocity_to_bin, if_neg (by rw [hstep]; norm_num),
      if_neg (by push_neg at *; omega)]
  · rw [bin_to_velocity, hfd, hstep,
      if_neg (by push_neg; exact ⟨by positivity, by omega⟩)]
  · positivity
  · omega
  · rw [BIN_STEP_eq]
    omega

/-- C8 witness: `v = 100` bins to 25 and is recovered exactly as 100. -/
theorem C8_velocity_roundtrip_witness :
    ∃ b w, velocity_to_bin 100 (BIN_STEP : ℤ) = .ok b ∧
      bin_to_velocity b (BIN_STEP : ℤ) = .ok w ∧
      0 ≤ w ∧ w ≤ 100 ∧ ((100 : ℤ) - w).natAbs < BIN_STEP :=
  C8_velocity_roundtrip 100 (by norm_num) (by norm_num)

/-- C10: `time_to_events` always succeeds; the indices it appends are
exactly `base_idx + u` for the unit counts `u` of `time_cutter`, each with
`1 ≤ u ≤ time_shift_events`, so each index lies strictly inside
`[0, vocab_size)` in the TIME_SHIFT block, the lookup `vocab[idx]` cannot
fail, and the appended token is `time_shift_{u-1}` — one unit less than the
count computed by `time_cutter`. -/
theorem C10_time_to_events_offset :
    ∀ d : ℕ, ∃ es is, time_to_events d = .ok (es, is) ∧
      time_cutter d LTH DIV = .ok (timeUnits d) ∧
      es = (timeUnits d).map (fun u => "time_shift_" ++ Nat.repr (u.toNat - 1)) ∧
      is = (timeUnits d).map (fun u => base_idx + u) ∧
      (∀ u ∈ timeUnits d, 1 ≤ u ∧ u ≤ (time_shift_events : ℤ)) ∧
      (∀ idx ∈ is, base_idx + 1 ≤ idx ∧ idx ≤ base_idx + (time_shift_events : ℤ) ∧
        0 ≤ idx ∧ idx < (vocab_size : ℤ) ∧
        ∃ u ∈ timeUnits d, idx = base_idx + u ∧
          pyGet vocab idx = .ok ("time_shift_" ++ Nat.repr (u.toNat - 1))) := by
  intro d
  refine ⟨_, _, time_to_events_eq d, time_cutter_eq d, rfl, rfl, ?_, ?_⟩
  · intro u hu
    have := timeUnits_mem_bounds hu
    constructor
    · exact this.1
    · show u ≤ ((125 : ℕ) : ℤ)
      push_cast
      exact this.2
  · intro idx hidx
    obtain ⟨u, hu, rfl⟩ := List.mem_map.mp hidx
    have hb := timeUnits_mem_bounds hu
    have h125 : ((time_shift_events : ℕ) : ℤ) = 125 := by norm_num [time_shift_events]
    refine ⟨by omega, by rw [h125]; omega, by rw [base_idx_eq]; omega,
      by rw [base_idx_eq, vocab_size_eq]; omega,
      u, hu, rfl, pyGet_vocab_shift hb.1 hb.2⟩

/-- C10 witness: at `d = 500` the single unit count is 63, the appended
index is `4096 + 63 = 4159`, and the appended token is `time_shift_62`. -/
theorem C10_time_to_events_offset_witness :
    ∃ es is, time_to_events 500 = .ok (es, is) ∧
      time_cutter 500 LTH DIV = .ok (timeUnits 500) ∧
      es = (timeUnits 500).map (fun u => "time_shift_" ++ Nat.repr (u.toNat - 1)) ∧
      is = (timeUnits 500).map (fun u => base_idx + u) ∧
      (∀ u ∈ timeUnits 500, 1 ≤ u ∧ u ≤ (time_shift_events : ℤ)) ∧
      (∀ idx ∈ is, base_idx + 1 ≤ idx ∧ idx ≤ base_idx + (time_shift_events : ℤ) ∧
        0 ≤ idx ∧ idx < (vocab_size : ℤ) ∧
        ∃ u ∈ timeUnits 500, idx = base_idx + u ∧
          pyGet vocab idx = .ok ("time_shift_" ++ Nat.repr (u.toNat - 1))) :=
  C10_time_to_events_offset 500

/-- C3 (code bug): in the first pass of `midi_parser`, `current_time` is
initialised once and never reset between tracks, so the second track's
event is stamped with time 20 — the first track's total plus its own —
whereas the per-track accumulation the spec describes (`procAllSpec`)
stamps it with 10.  Input: two one-message tracks, each a note-on with
delta 10. -/
theorem C3_per_track_time_bug :
    ((procAll pInit [[RawMsg.noteOn 0 60 50 10],
      [RawMsg.noteOn 0 62 50 10]]).events.map (fun e => e.time) = [10, 20]) ∧
    ((procAllSpec [[RawMsg.noteOn 0 60 50 10],
      [RawMsg.noteOn 0 62 50 10]]).events.map (fun e => e.time) = [10, 10]) ∧
    ([10, 20] : List ℕ) ≠ [10, 10] := by
  refine ⟨by decide, by decide, by decide⟩

/-! ### C2: concrete single-note round trip -/

lemma encodeBody_cons {last last' : ℕ} {e : MidiEvent} {rest : List MidiEvent}
    {ts es rs : List String} {ti ei ri : List ℤ}
    (h1 : timeStep last e.time = .ok (ts, ti, last'))
    (h2 : encodeEvent e = .ok (es, ei))
    (h3 : encodeBody last' rest = .ok (rs, ri)) :
    encodeBody last (e :: rest) = .ok (ts ++ es ++ rs, ti ++ ei ++ ri) := by
  rw [encodeBody]
  simp only [h1, h2, h3]

/-- The input of C2: one track, a `note_on(60, vel 100, ch 0)` at delta 0
followed by a `note_off` at delta 500. -/
def c2Input : List (List RawMsg) :=
  [[RawMsg.noteOn 0 60 100 0, RawMsg.noteOff 0 60 0 500]]

lemma c2_tokenize :
    tokenize [⟨.note_on, 60, 100, 0, 0, 0⟩, ⟨.note_off, 60, 0, 0, 500, 0⟩] =
      .ok (["<start>", "set_velocity_25", "note_on_60_0", "time_shift_62",
            "note_off_60_0", "<end>"],
           [(4382 : ℤ), 4247, 61, 4159, 2109, 4383]) := by
  have hsort : sortByTime [(⟨.note_on, 60, 100, 0, 0, 0⟩ : MidiEvent),
      ⟨.note_off, 60, 0, 0, 500, 0⟩] =
      [⟨.note_on, 60, 100, 0, 0, 0⟩, ⟨.note_off, 60, 0, 0, 500, 0⟩] := by
    decide
  have h1 : timeStep 0 0 = .ok ([], [], 0) := rfl
  have h2 : encodeEvent ⟨.note_on, 60, 100, 0, 0, 0⟩ =
      .ok (["set_velocity_25", "note_on_60_0"], [(4247 : ℤ), 61]) :=
    encodeEvent_noteOn rfl (by decide)
  have h3 : timeStep 0 500 = .ok (["time_shift_62"], [(4159 : ℤ)], 500) := by
    rw [timeStep, if_pos (by norm_num), time_to_events_eq,
      show timeUnits 500 = [(63 : ℤ)] from by decide]
    simp only [List.map_cons, List.map_nil, base_idx_eq]
    rfl
  have h4 : encodeEvent ⟨.note_off, 60, 0, 0, 500, 0⟩ =
      .ok (["note_off_60_0"], [(2109 : ℤ)]) :=
    encodeEvent_noteOff rfl (by decide)
  have hbody : encodeBody 0 [(⟨.note_on, 60, 100, 0, 0, 0⟩ : MidiEvent),
      ⟨.note_off, 60, 0, 0, 500, 0⟩] =
      .ok (["set_velocity_25", "note_on_60_0", "time_shift_62",
        "note_off_60_0"], [(4247 : ℤ), 61, 4159, 2109]) := by
    have := encodeBody_cons h1 h2
      (encodeBody_cons h3 h4 (rfl :
        encodeBody 500 [] = .ok ([], [])))
    simpa using this
  rw [tokenize, hsort]
  simp only [hbody]
  rw [start_token_eq, end_token_eq]
  rfl


lemma c2_decode :
    listParserEvents ["<start>", "set_velocity_25", "note_on_60_0",
      "time_shift_62", "note_off_60_0", "<end>"] =
      .ok ⟨0, 100, 0,
        [(0, [TrackMsg.program_change 0 0 0,
              TrackMsg.note true 60 100 0 0,
              TrackMsg.note false 60 0 0 496])]⟩ := by
  have s1 : decodeStep decInit "<start>" = .ok decInit := decodeStep_start _
  have s2 : decodeStep decInit "set_velocity_25" = .ok ⟨0, 100, 0, []⟩ := by
    exact @decodeStep_sv decInit 25 (by norm_num)
  have s3 : decodeStep ⟨0, 100, 0, []⟩ "note_on_60_0" =
      .ok ⟨0, 100, 0, [(0, [TrackMsg.program_change 0 0 0,
        TrackMsg.note true 60 100 0 0])]⟩ := by
    exact @decodeStep_non ⟨0, 100, 0, []⟩ 60 0 (by norm_num) (by norm_num)
      ⟨by norm_num, by norm_num⟩
  have s4 : decodeStep ⟨0, 100, 0, [(0, [TrackMsg.program_change 0 0 0,
      TrackMsg.note true 60 100 0 0])]⟩ "time_shift_62" =
      .ok ⟨0, 100, 496, [(0, [TrackMsg.program_change 0 0 0,
        TrackMsg.note true 60 100 0 0])]⟩ := by
    exact @decodeStep_ts _ 62 (by norm_num)
  have s5 : decodeStep ⟨0, 100, 496, [(0, [TrackMsg.program_change 0 0 0,
      TrackMsg.note true 60 100 0 0])]⟩ "note_off_60_0" =
      .ok ⟨0, 100, 0, [(0, [TrackMsg.program_change 0 0 0,
        TrackMsg.note true 60 100 0 0,
        TrackMsg.note false 60 0 0 496])]⟩ := by
    exact @decodeStep_noff _ 60 0 (by norm_num) (by norm_num)
  rw [listParserEvents, decodeList_cons_ok s1, decodeList_cons_ok s2,
    decodeList_cons_ok s3, decodeList_cons_ok s4, decodeList_cons_ok s5]
  exact decodeList_single (decodeStep_end _)

/-- C2 (code bug): on the single-note input, `midi_parser` emits
`time_shift_62`, not `time_shift_63 = time_shift_{round(500/8)}` as
specified: `time_to_events` adds the raw unit count 63 to a base index of
4096 instead of 4097, landing one slot low in the TIME_SHIFT block.
Decoding the produced sequence places the note-off at relative time
`62 * DIV = 496`, not the specified `round(500/8) * DIV = 504`. -/
theorem C2_single_note_bug :
    midiParser c2Input =
      .ok ([(4382 : ℤ), 4247, 61, 4159, 2109, 4383],
        ["<start>", "set_velocity_25", "note_on_60_0", "time_shift_62",
         "note_off_60_0", "<end>"], 0) ∧
    listParserEvents ["<start>", "set_velocity_25", "note_on_60_0",
        "time_shift_62", "note_off_60_0", "<end>"] =
      .ok ⟨0, 100, 0,
        [(0, [TrackMsg.program_change 0 0 0,
              TrackMsg.note true 60 100 0 0,
              TrackMsg.note false 60 0 0 496])]⟩ ∧
    round_ ((500 : ℚ) / ((DIV : ℕ) : ℚ)) = 63 ∧
    ("time_shift_62" : String) ≠
      "time_shift_" ++ Nat.repr (round_ ((500 : ℚ) / ((DIV : ℕ) : ℚ))).toNat ∧
    (496 : ℤ) ≠ round_ ((500 : ℚ) / ((DIV : ℕ) : ℚ)) * ((DIV : ℕ) : ℤ) := by
  have hround : round_ ((500 : ℚ) / ((DIV : ℕ) : ℚ)) = 63 := by
    rw [DIV_eq]
    have := round_div8 500
    norm_num at this ⊢
    convert this using 2
  refine ⟨?_, c2_decode, hround, ?_, ?_⟩
  · have hev : (procAll pInit c2Input).events =
        [⟨.note_on, 60, 100, 0, 0, 0⟩, ⟨.note_off, 60, 0, 0, 500, 0⟩] := by
      decide
    have htp : (procAll pInit c2Input).tempo = 0 := by decide
    rw [midiParser]
    simp only [hev, htp, c2_tokenize]
  · rw [hround]
    decide
  · rw [hround, DIV_eq]
    decide

/-! ### C5: shape of every encoded sequence -/

/-- No string with a `note_on_` prefix sits at the head. -/
def noNOHead (es : List String) : Prop :=
  ∀ s : String, es[0]? = some s → pyStartsWith s "note_on_" = false

/-- Every string with a `note_on_` prefix is immediately preceded by one
with a `set_velocity_` prefix. -/
def svBeforeNO (es : List String) : Prop :=
  ∀ (k : ℕ) (s : String), es[k]? = some s →
    pyStartsWith s "note_on_" = true →
    1 ≤ k ∧ ∃ t, es[k - 1]? = some t ∧ pyStartsWith t "set_velocity_" = true

lemma svBeforeNO_of_none {es : List String}
    (h : ∀ s ∈ es, pyStartsWith s "note_on_" = false) : svBeforeNO es :=
  fun _ s hk hno => absurd hno (by rw [h s (List.getElem?_mem hk)]; simp)

lemma noNOHead_of_none {es : List String}
    (h : ∀ s ∈ es, pyStartsWith s "note_on_" = false) : noNOHead es :=
  fun s hk => h s (List.getElem?_mem hk)

lemma noNOHead_append {a b : List String} (ha : noNOHead a)
    (hb : noNOHead b) : noNOHead (a ++ b) := by
  cases a with
  | nil => exact hb
  | cons x t =>
    intro s hs
    rw [List.cons_append, List.getElem?_cons_zero] at hs
    injection hs with hs
    rw [← hs]
    exact ha x (by simp)

lemma svBeforeNO_append {a b : List String} (ha : svBeforeNO a)
    (hb : svBeforeNO b) (hbh : noNOHead b) : svBeforeNO (a ++ b) := by
  intro k s hk hno
  by_cases hlt : k < a.length
  · rw [List.getElem?_append_left hlt] at hk
    obtain ⟨h1, t, ht, hsv⟩ := ha k s hk hno
    exact ⟨h1, t,
      by rw [List.getElem?_append_left (by omega)]; exact ht, hsv⟩
  · push_neg at hlt
    rw [List.getElem?_append_right hlt] at hk
    by_cases h0 : k - a.length = 0
    · rw [h0] at hk
      rw [hbh s hk] at hno
      cases hno
    · obtain ⟨h1, t, ht, hsv⟩ := hb (k - a.length) s hk hno
      refine ⟨by omega, t, ?_, hsv⟩
      rw [List.getElem?_append_right (by omega : a.length ≤ k - 1),
        show k - 1 - a.length = k - a.length - 1 from by omega]
      exact ht

lemma timeStep_strings {last t last' : ℕ} {ts : List String} {ti : List ℤ}
    (h : timeStep last t = .ok (ts, ti, last')) :
    ∀ s ∈ ts, pyStartsWith s "note_on_" = false := by
  rw [timeStep] at h
  by_cases hlt : last < t
  · rw [if_pos hlt, time_to_events_eq] at h
    simp only [Except.ok.injEq, Prod.mk.injEq] at h
    obtain ⟨hts, _, _⟩ := h
    subst hts
    intro s hs
    obtain ⟨u, _, rfl⟩ := List.mem_map.mp hs
    exact startsWith_ne 0 _ (by decide) (by decide) (by decide)
  · rw [if_neg hlt] at h
    simp only [Except.ok.injEq, Prod.mk.injEq] at h
    obtain ⟨hts, _, _⟩ := h
    subst hts
    intro s hs
    cases hs


lemma encodeEvent_shape {e : MidiEvent} {es : List String} {is : List ℤ}
    (h : encodeEvent e = .ok (es, is)) :
    (∃ r, es = ["set_instrument_" ++ r]) ∨
    (∃ r1 r2, es = ["set_velocity_" ++ r1, "note_on_" ++ r2]) ∨
    (∃ r, es = ["note_off_" ++ r]) := by
  rcases ht : e.type with _ | _ | _
  · rcases hv : velocity_to_bin (e.velocity : ℤ) ((BIN_STEP : ℕ) : ℤ)
      with err | b
    · simp only [encodeEvent, ht, hv] at h
      exact Except.noConfusion h
    · rcases hv1 : vocabIndex ("set_velocity_" ++ Int.repr b) with err | iv
      · simp only [encodeEvent, ht, hv, hv1] at h
        exact Except.noConfusion h
      · rcases hv2 : vocabIndex ("note_on_" ++ Nat.repr e.note ++ "_" ++
          Nat.repr e.instrument) with err | inn
        · simp only [encodeEvent, ht, hv, hv1, hv2] at h
          exact Except.noConfusion h
        · simp only [encodeEvent, ht, hv, hv1, hv2, Except.ok.injEq,
            Prod.mk.injEq] at h
          obtain ⟨hes, _⟩ := h
          refine Or.inr (Or.inl ⟨Int.repr b,
            Nat.repr e.note ++ ("_" ++ Nat.repr e.instrument), ?_⟩)
          rw [← hes, note_str_assoc]
  · rcases hv : vocabIndex ("note_off_" ++ Nat.repr e.note ++ "_" ++
      Nat.repr e.instrument) with err | inn
    · simp only [encodeEvent, ht, hv] at h
      exact Except.noConfusion h
    · simp only [encodeEvent, ht, hv, Except.ok.injEq, Prod.mk.injEq] at h
      obtain ⟨hes, _⟩ := h
      refine Or.inr (Or.inr ⟨Nat.repr e.note ++ ("_" ++ Nat.repr e.instrument), ?_⟩)
      rw [← hes, note_str_assoc]
  · rcases hv : vocabIndex ("set_instrument_" ++ Nat.repr e.program)
      with err | i0
    · simp only [encodeEvent, ht, hv] at h
      exact Except.noConfusion h
    · simp only [encodeEvent, ht, hv, Except.ok.injEq, Prod.mk.injEq] at h
      obtain ⟨hes, _⟩ := h
      exact Or.inl ⟨Nat.repr e.program, hes.symm⟩

lemma chunk_sv_before {es : List String} {is : List ℤ} {e : MidiEvent}
    (h : encodeEvent e = .ok (es, is)) : svBeforeNO es ∧ noNOHead es := by
  rcases encodeEvent_shape h with ⟨r, rfl⟩ | ⟨r1, r2, rfl⟩ | ⟨r, rfl⟩
  · have hall : ∀ s ∈ ["set_instrument_" ++ r],
        pyStartsWith s "note_on_" = false := by
      intro s hs
      rw [List.mem_singleton] at hs
      subst hs
      exact startsWith_ne 0 _ (by decide) (by decide) (by decide)
    exact ⟨svBeforeNO_of_none hall, noNOHead_of_none hall⟩
  · constructor
    · intro k s hk hno
      match k with
      | 0 =>
        rw [List.getElem?_cons_zero] at hk
        injection hk with hk
        rw [← hk, startsWith_ne 0 _ (by decide) (by decide) (by decide)] at hno
        cases hno
      | 1 =>
        exact ⟨by omega, "set_velocity_" ++ r1, rfl,
          startsWith_self_append _ _⟩
      | (k + 2) =>
        simp at hk
    · intro s hk
      rw [List.getElem?_cons_zero] at hk
      injection hk with hk
      rw [← hk]
      exact startsWith_ne 0 _ (by decide) (by decide) (by decide)
  · have hall : ∀ s ∈ ["note_off_" ++ r],
        pyStartsWith s "note_on_" = false := by
      intro s hs
      rw [List.mem_singleton] at hs
      subst hs
      exact startsWith_ne 6 _ (by decide) (by decide) (by decide)
    exact ⟨svBeforeNO_of_none hall, noNOHead_of_none hall⟩

lemma encodeBody_sv_before :
    ∀ (evs : List MidiEvent) (last : ℕ) {es : List String} {is : List ℤ},
      encodeBody last evs = .ok (es, is) → svBeforeNO es ∧ noNOHead es
  | [], last, es, is, h => by
    have h' : (Except.ok (([] : List String), ([] : List ℤ)) :
        Except String (List String × List ℤ)) = .ok (es, is) := h
    simp only [Except.ok.injEq, Prod.mk.injEq] at h'
    obtain ⟨hes, _⟩ := h'
    subst hes
    constructor
    · intro k s hk hno
      simp at hk
    · intro s hk
      simp at hk
  | e :: rest, last, es, is, h => by
    rcases hts : timeStep last e.time with err | ⟨ts, ti, last'⟩
    · rw [encodeBody] at h
      simp only [hts] at h
      exact Except.noConfusion h
    · rcases hch : encodeEvent e with err | ⟨chE, chI⟩
      · rw [encodeBody] at h
        simp only [hts, hch] at h
        exact Except.noConfusion h
      · rcases hres : encodeBody last' rest with err | ⟨rs, ri⟩
        · rw [encodeBody] at h
          simp only [hts, hch, hres] at h
          exact Except.noConfusion h
        · have hcomb := encodeBody_cons hts hch hres
          rw [h] at hcomb
          have h' := hcomb
          simp only [Except.ok.injEq, Prod.mk.injEq] at h'
          obtain ⟨hes, _⟩ := h'
          subst hes
          have hT := timeStep_strings hts
          have hC := chunk_sv_before hch
          have hR := encodeBody_sv_before rest last' hres
          exact ⟨svBeforeNO_append
              (svBeforeNO_append (svBeforeNO_of_none hT) hC.1 hC.2)
              hR.1 hR.2,
            noNOHead_append (noNOHead_append (noNOHead_of_none hT) hC.2)
              hR.2⟩


/-- C5: every sequence `midi_parser` produces starts with `<start>`
(index `start_token`) and ends with `<end>` (index `end_token`), and every
token with a `note_on_` prefix is immediately preceded by one with a
`set_velocity_` prefix. -/
theorem C5_sequence_shape :
    ∀ (tracks : List (List RawMsg)) (is : List ℤ) (es : List String)
      (tempo : ℕ), midiParser tracks = .ok (is, es, tempo) →
      es.head? = some "<start>" ∧ es.getLast? = some "<end>" ∧
      is.head? = some ((start_token : ℕ) : ℤ) ∧
      is.getLast? = some ((end_token : ℕ) : ℤ) ∧
      ∀ (k : ℕ) (s : String), es[k]? = some s →
        pyStartsWith s "note_on_" = true →
        1 ≤ k ∧ ∃ t, es[k - 1]? = some t ∧
          pyStartsWith t "set_velocity_" = true := by
  intro tracks is es tempo h
  rw [midiParser] at h
  rcases htok : tokenize (procAll pInit tracks).events with err | ⟨es', is'⟩
  · simp only [htok] at h
    exact Except.noConfusion h
  · simp only [htok, Except.ok.injEq, Prod.mk.injEq] at h
    obtain ⟨his, hes, _⟩ := h
    rw [tokenize] at htok
    rcases hb : encodeBody 0 (sortByTime (procAll pInit tracks).events)
      with err | ⟨bs, bi⟩
    · simp only [hb] at htok
      exact Except.noConfusion htok
    · simp only [hb, Except.ok.injEq, Prod.mk.injEq] at htok
      obtain ⟨hes', his'⟩ := htok
      subst hes' his' his hes
      obtain ⟨hsv, hhd⟩ := encodeBody_sv_before _ 0 hb
      refine ⟨rfl, ?_, rfl, ?_, ?_⟩
      · show (("<start>" :: bs) ++ ["<end>"]).getLast? = some "<end>"
        exact List.getLast?_concat _
      · show ((((start_token : ℕ) : ℤ) :: bi) ++
          [((end_token : ℕ) : ℤ)]).getLast? = some _
        exact List.getLast?_concat _
      · show svBeforeNO (("<start>" :: bs) ++ ["<end>"])
        have h1 : ∀ s ∈ ["<start>"], pyStartsWith s "note_on_" = false := by
          intro s hs
          rw [List.mem_singleton] at hs
          subst hs
          decide
        have h2 : ∀ s ∈ ["<end>"], pyStartsWith s "note_on_" = false := by
          intro s hs
          rw [List.mem_singleton] at hs
          subst hs
          decide
        show svBeforeNO ((["<start>"] ++ bs) ++ ["<end>"])
        exact svBeforeNO_append
          (svBeforeNO_append (svBeforeNO_of_none h1) hsv hhd)
          (svBeforeNO_of_none h2) (noNOHead_of_none h2)

lemma midiParser_nil :
    midiParser [] = .ok ([(4382 : ℤ), 4383], ["<start>", "<end>"], 0) := by
  have hb : encodeBody 0 (sortByTime (procAll pInit []).events) =
      .ok ([], []) := rfl
  rw [midiParser, tokenize]
  simp only [hb]
  rw [start_token_eq, end_token_eq]
  rfl

/-- C5 witness: the empty input encodes to `[<start>, <end>]`
(indices `[4382, 4383]`), which satisfies all the shape properties. -/
theorem C5_sequence_shape_witness :
    (["<start>", "<end>"] : List String).head? = some "<start>" ∧
    (["<start>", "<end>"] : List String).getLast? = some "<end>" ∧
    ([(4382 : ℤ), 4383] : List ℤ).head? = some ((start_token : ℕ) : ℤ) ∧
    ([(4382 : ℤ), 4383] : List ℤ).getLast? = some ((end_token : ℕ) : ℤ) ∧
    ∀ (k : ℕ) (s : String), (["<start>", "<end>"] : List String)[k]? = some s →
      pyStartsWith s "note_on_" = true →
      1 ≤ k ∧ ∃ t, (["<start>", "<end>"] : List String)[k - 1]? = some t ∧
        pyStartsWith t "set_velocity_" = true :=
  C5_sequence_shape [] [4382, 4383] ["<start>", "<end>"] 0 midiParser_nil

/-! ### C9: encoding fails on unrepresentable programs -/

/-- mido's validation of the messages of any loadable file: channels are
4-bit, data bytes (note, velocity, program) are 7-bit. -/
def validMsg : RawMsg → Prop
  | .noteOn c n v _ => c < 16 ∧ n < 128 ∧ v < 128
  | .noteOff c n v _ => c < 16 ∧ n < 128 ∧ v < 128
  | .programChange c p _ => c < 16 ∧ p < 128
  | .setTempo _ _ => True
  | .meta _ => True
  | .other _ => True

/-- What the first pass guarantees about each collected event: 7-bit note,
velocity, instrument and program, and `set_instrument` events carry a 4-bit
channel in their `instrument` field. -/
def rawValidEv (e : MidiEvent) : Prop :=
  e.note < 128 ∧ e.velocity < 128 ∧ e.instrument < 128 ∧ e.program < 128 ∧
    (e.type = .set_instrument → e.instrument < 16)

/-- Invariant of the first-pass state. -/
def pInv (st : PState) : Prop :=
  (∀ e ∈ st.events, rawValidEv e) ∧ ∀ c, st.channel_programs c < 128

lemma procMsg_inv {st : PState} {m : RawMsg} (h : pInv st) (hm : validMsg m) :
    pInv (procMsg st m) := by
  obtain ⟨he, hp⟩ := h
  cases m with
  | noteOn c n v t =>
    obtain ⟨hc, hn, hv⟩ := hm
    by_cases hv0 : v = 0
    · have hev : (procMsg st (RawMsg.noteOn c n v t)).events =
          st.events ++ [⟨.note_off, n, v, st.channel_programs c,
            st.current_time + t, 0⟩] := by
        simp [procMsg, RawMsg.time, hv0]
      refine ⟨?_, hp⟩
      intro e hme
      rw [hev] at hme
      rcases List.mem_append.mp hme with hme | hme
      · exact he e hme
      · rw [List.mem_singleton] at hme
        subst hme
        exact ⟨hn, hv, (hp c).trans_le (by norm_num), by norm_num,
          fun hh => by cases hh⟩
    · have hev : (procMsg st (RawMsg.noteOn c n v t)).events =
          st.events ++ [⟨.note_on, n, v, st.channel_programs c,
            st.current_time + t, 0⟩] := by
        simp [procMsg, RawMsg.time, hv0]
      refine ⟨?_, hp⟩
      intro e hme
      rw [hev] at hme
      rcases List.mem_append.mp hme with hme | hme
      · exact he e hme
      · rw [List.mem_singleton] at hme
        subst hme
        exact ⟨hn, hv, (hp c).trans_le (by norm_num), by norm_num,
          fun hh => by cases hh⟩
  | noteOff c n v t =>
    obtain ⟨hc, hn, hv⟩ := hm
    refine ⟨?_, hp⟩
    intro e hme
    rcases List.mem_append.mp hme with hme | hme
    · exact he e hme
    · rw [List.mem_singleton] at hme
      subst hme
      exact ⟨hn, hv, (hp c).trans_le (by norm_num), by norm_num,
        fun hh => by cases hh⟩
  | programChange c p t =>
    obtain ⟨hc, hpp⟩ := hm
    constructor
    · intro e hme
      rcases List.mem_append.mp hme with hme | hme
      · exact he e hme
      · rw [List.mem_singleton] at hme
        subst hme
        exact ⟨by norm_num, by norm_num, by show c < 128; omega, hpp,
          fun _ => hc⟩
    · intro x
      show (if x = c then p else st.channel_programs x) < 128
      split
      · exact hpp
      · exact hp x
  | setTempo tp t => exact ⟨he, hp⟩
  | meta t => exact ⟨he, hp⟩
  | other t => exact ⟨he, hp⟩

lemma foldl_procMsg_inv :
    ∀ (ms : List RawMsg) (st : PState), pInv st → (∀ m ∈ ms, validMsg m) →
      pInv (ms.foldl procMsg st)
  | [], _, h, _ => h
  | m :: ms, st, h, hv =>
    foldl_procMsg_inv ms _ (procMsg_inv h (hv m (List.mem_cons_self m ms)))
      (fun x hx => hv x (List.mem_cons_of_mem m hx))

lemma procAll_inv :
    ∀ (tracks : List (List RawMsg)) (st : PState), pInv st →
      (∀ tr ∈ tracks, ∀ m ∈ tr, validMsg m) → pInv (procAll st tracks)
  | [], _, h, _ => h
  | tr :: ts, st, h, hv => by
    have hstep : procAll st (tr :: ts) =
        procAll (tr.foldl procMsg st) ts := by
      rw [procAll, procAll, List.foldl_cons]
    rw [hstep]
    exact procAll_inv ts _
      (foldl_procMsg_inv tr st h (hv tr (List.mem_cons_self tr ts)))
      (fun x hx m hm => hv x (List.mem_cons_of_mem tr hx) m hm)

/-- A note event whose instrument slot is 16 or more produces a lookup
miss: the derived `note_on_{n}_{i}`/`note_off_{n}_{i}` symbol is outside
the fixed layout, so `vocab.index` raises. -/
lemma encodeEvent_err_hi {e : MidiEvent}
    (hflag : e.type = .note_on ∨ e.type = .note_off)
    (hr : rawValidEv e) (hi16 : 16 ≤ e.instrument) :
    encodeEvent e = .error "ValueError" := by
  rcases hflag with ht | ht
  · rw [encodeEvent, ht]
    have hb : e.velocity / BIN_STEP < 32 := by
      have := hr.2.1
      rw [BIN_STEP_eq]
      omega
    simp only [velocity_to_bin_eval hr.2.1, int_repr_natCast,
      vocabIndex_velocity hb,
      vocabIndex_of_not_mem (noteOn_hi_not_mem hr.1 hi16 hr.2.2.1)]
  · rw [encodeEvent, ht]
    simp only [vocabIndex_of_not_mem (noteOff_hi_not_mem hr.1 hi16 hr.2.2.1)]

lemma encodeEvent_ok_of_good {e : MidiEvent} (hr : rawValidEv e)
    (hgood : ¬((e.type = .note_on ∨ e.type = .note_off) ∧ 16 ≤ e.instrument)) :
    ∃ p, encodeEvent e = .ok p := by
  rcases ht : e.type with _ | _ | _
  · have hv : validEvent e :=
      ⟨hr.1, hr.2.1, by push_neg at hgood; exact hgood (Or.inl ht), hr.2.2.2.1⟩
    exact ⟨_, encodeEvent_noteOn ht hv⟩
  · have hv : validEvent e :=
      ⟨hr.1, hr.2.1, by push_neg at hgood; exact hgood (Or.inr ht), hr.2.2.2.1⟩
    exact ⟨_, encodeEvent_noteOff ht hv⟩
  · have hv : validEvent e := ⟨hr.1, hr.2.1, hr.2.2.2.2 ht, hr.2.2.2.1⟩
    exact ⟨_, encodeEvent_si ht hv⟩

lemma timeStep_ex (last t : ℕ) : ∃ p, timeStep last t = .ok p := by
  rw [timeStep]
  by_cases h : last < t
  · rw [if_pos h, time_to_events_eq]
    exact ⟨_, rfl⟩
  · rw [if_neg h]
    exact ⟨_, rfl⟩

lemma encodeBody_err :
    ∀ (evs : List MidiEvent) (last : ℕ), (∀ e ∈ evs, rawValidEv e) →
      (∃ e ∈ evs, (e.type = .note_on ∨ e.type = .note_off) ∧
        16 ≤ e.instrument) →
      ∃ err, encodeBody last evs = .error err
  | [], _, _, hbad => by
    obtain ⟨e, he, _⟩ := hbad
    exact absurd he (List.not_mem_nil e)
  | e :: rest, last, hr, hbad => by
    obtain ⟨p, hts⟩ := timeStep_ex last e.time
    obtain ⟨ts, ti, last'⟩ := p
    by_cases hbe : (e.type = .note_on ∨ e.type = .note_off) ∧
        16 ≤ e.instrument
    · have herr := encodeEvent_err_hi hbe.1
        (hr e (List.mem_cons_self e rest)) hbe.2
      refine ⟨"ValueError", ?_⟩
      rw [encodeBody]
      simp only [hts, herr]
    · obtain ⟨q, hok⟩ := encodeEvent_ok_of_good
        (hr e (List.mem_cons_self e rest)) hbe
      obtain ⟨chE, chI⟩ := q
      have hbad' : ∃ x ∈ rest, (x.type = .note_on ∨ x.type = .note_off) ∧
          16 ≤ x.instrument := by
        obtain ⟨x, hx, hbx⟩ := hbad
        rcases List.mem_cons.mp hx with rfl | hx
        · exact absurd hbx hbe
        · exact ⟨x, hx, hbx⟩
      obtain ⟨err, herr⟩ := encodeBody_err rest last'
        (fun x hx => hr x (List.mem_cons_of_mem e hx)) hbad'
      refine ⟨err, ?_⟩
      rw [encodeBody]
      simp only [hts, hok, herr]

/-- C9: on any mido-valid input whose first pass collects a note event on a
channel whose assigned program is 16 or greater, `midi_parser` raises (the
derived note symbol is outside the fixed layout, making `vocab.index`
fail) instead of producing a token. -/
theorem C9_unrepresentable_program :
    ∀ tracks : List (List RawMsg),
      (∀ tr ∈ tracks, ∀ m ∈ tr, validMsg m) →
      (∃ e ∈ (procAll pInit tracks).events,
        (e.type = .note_on ∨ e.type = .note_off) ∧ 16 ≤ e.instrument) →
      ∃ err, midiParser tracks = .error err := by
  intro tracks hv hbad
  have hinv : pInv (procAll pInit tracks) :=
    procAll_inv tracks pInit
      ⟨fun e he => absurd he (List.not_mem_nil e),
        fun c => by show (0 : ℕ) < 128; norm_num⟩ hv
  obtain ⟨e, he, hbe⟩ := hbad
  obtain ⟨err, herr⟩ := encodeBody_err
    (sortByTime (procAll pInit tracks).events) 0
    (fun x hx => hinv.1 x ((mem_sortByTime x _).mp hx))
    ⟨e, (mem_sortByTime e _).mpr he, hbe⟩
  refine ⟨err, ?_⟩
  rw [midiParser, tokenize]
  simp only [herr]

/-- The input of the C9 witness: a `program_change` to program 20 on
channel 0, then a note-on on that channel. -/
def c9Input : List (List RawMsg) :=
  [[RawMsg.programChange 0 20 0, RawMsg.noteOn 0 60 50 0]]

/-- C9 witness: the concrete input above makes `midi_parser` fail. -/
theorem C9_unrepresentable_program_witness :
    ∃ err, midiParser c9Input = .error err := by
  apply C9_unrepresentable_program
  · intro tr htr m hm
    rw [c9Input, List.mem_singleton] at htr
    subst htr
    rcases List.mem_cons.mp hm with rfl | hm
    · exact ⟨by norm_num, by norm_num⟩
    · rcases List.mem_cons.mp hm with rfl | hm
      · exact ⟨by norm_num, by norm_num, by norm_num⟩
      · exact absurd hm (List.not_mem_nil m)
  · refine ⟨⟨.note_on, 60, 50, 20, 0, 0⟩, ?_, Or.inl rfl, by norm_num⟩
    rw [show (procAll pInit c9Input).events =
      [⟨.set_instrument, 0, 0, 0, 0, 20⟩, ⟨.note_on, 60, 50, 20, 0, 0⟩]
      from by decide]
    simp

/-! ### C1: encode/decode round trip and the gap bound -/

lemma trackNotes_decInit (j : ℤ) : trackNotes decInit j = [] := rfl

lemma tokenize_roundtrip {evs : List MidiEvent} (h : validEvents evs) :
    ∃ es is, tokenize evs = .ok (es, is) ∧
      indices_to_events is = .ok es ∧
      ∃ st', listParserEvents es = .ok st' ∧
        ∀ j : ℤ, trackNotes st' j =
          ((sortByTime evs).filter
            (fun e => noteFlag e && ((e.instrument : ℤ) == j))).map
            evNoteData := by
  obtain ⟨bs, bi, hok, hidx, st', hdec, _, _, hnotes⟩ :=
    roundtrip_body (sortByTime evs) 0 decInit (validEvents_sortByTime h)
      (by norm_num [decInit]) (by norm_num [decInit])
  refine ⟨"<start>" :: bs ++ ["<end>"],
    ((start_token : ℕ) : ℤ) :: bi ++ [((end_token : ℕ) : ℤ)], ?_, ?_, st',
    ?_, ?_⟩
  · rw [tokenize]
    simp only [hok]
  · show indices_to_events
        ([((start_token : ℕ) : ℤ)] ++ (bi ++ [((end_token : ℕ) : ℤ)])) =
      .ok (["<start>"] ++ (bs ++ ["<end>"]))
    refine indices_append (indices_single ?_)
      (indices_append hidx (indices_single ?_))
    · rw [start_token_eq]
      exact vocab_getElem_start
    · rw [end_token_eq]
      exact vocab_getElem_end
  · rw [listParserEvents, List.cons_append,
      decodeList_cons_ok (decodeStep_start decInit),
      decodeList_append_ok _ _ hdec]
    exact decodeList_single (decodeStep_end st')
  · intro j
    rw [hnotes j, trackNotes_decInit]
    simp

/-- C1 (amended): encoding a mido-valid event sequence and decoding the
result reproduces, per instrument, exactly the time-sorted note on/off
events with their notes, instruments and binned velocities; the index list
decodes to the event list.  For the timing, every positive gap `d` emits
tokens whose unit values (each one less than `time_cutter`'s count `u`)
satisfy `|sum((u-1) * DIV) - d| ≤ DIV * k + DIV/2` for `k` tokens.  The
original per-gap bound `DIV * k` alone is refuted by the counterexample
below. -/
theorem C1_roundtrip :
    (∀ evs : List MidiEvent, validEvents evs →
      ∃ es is, tokenize evs = .ok (es, is) ∧
        indices_to_events is = .ok es ∧
        ∃ st', listParserEvents es = .ok st' ∧
          ∀ j : ℤ, trackNotes st' j =
            ((sortByTime evs).filter
              (fun e => noteFlag e && ((e.instrument : ℤ) == j))).map
              evNoteData) ∧
    (∀ d : ℕ, 0 < d →
      ∃ l, time_cutter d LTH DIV = .ok l ∧
        (((l.map (fun u => (u - 1) * (DIV : ℤ))).sum - (d : ℤ)).natAbs ≤
          DIV * l.length + DIV / 2)) := by
  constructor
  · intro evs h
    exact tokenize_roundtrip h
  · intro d _
    refine ⟨timeUnits d, time_cutter_eq d, ?_⟩
    have h1 := timeUnits_sum_bound d
    rw [sum_map_pred_mul]
    rw [DIV_eq] at h1 ⊢
    omega

/-- C1 witness: the empty event list round-trips (to the empty track set),
and the gap `d = 8` is covered by one token of unit value 0 within the
amended bound. -/
theorem C1_roundtrip_witness :
    (∃ es is, tokenize [] = .ok (es, is) ∧
      indices_to_events is = .ok es ∧
      ∃ st', listParserEvents es = .ok st' ∧
        ∀ j : ℤ, trackNotes st' j =
          ((sortByTime []).filter
            (fun e => noteFlag e && ((e.instrument : ℤ) == j))).map
            evNoteData) ∧
    (∃ l, time_cutter 8 LTH DIV = .ok l ∧
      (((l.map (fun u => (u - 1) * (DIV : ℤ))).sum - (8 : ℤ)).natAbs ≤
        DIV * l.length + DIV / 2)) :=
  ⟨C1_roundtrip.1 [] (fun e he => absurd he (List.not_mem_nil e)),
   C1_roundtrip.2 8 (by norm_num)⟩

/-- C1 counterexample to the original per-gap bound: the positive gap
`d = 1` emits no TIME_SHIFT tokens at all, so the claimed bound is
`DIV * 0 = 0`, yet the token sum misses `d` by 1. -/
theorem C1_counterexample :
    0 < (1 : ℕ) ∧
    ∃ l, time_cutter 1 LTH DIV = .ok l ∧
      ¬(((l.map (fun u => (u - 1) * (DIV : ℤ))).sum - (1 : ℤ)).natAbs ≤
        DIV * l.length) := by
  refine ⟨by norm_num, timeUnits 1, time_cutter_eq 1, ?_⟩
  rw [show timeUnits 1 = [] from by decide]
  decide

end MMT
